import Mathlib

/-!
Verification development for the pyscan repository.

Part 1 embeds `pyscan/dal/bsread_dal.py` (the synchronized stream reader
`ReadGroupInterface`): timestamp matching, field extraction with the
missing-field policy, the message cache shared between the primary `read`
and `read_cached_monitors`, and `close`.

Part 2 embeds `pyscan/scanner.py` (the `Scanner` control loop):
pause/abort flags, `_verify_scan_status`, `_perform_single_read` with its
retry bound, `_read_and_process_data`, and `discrete_scan` with its
try/finally finalization discipline.  Wall-clock time is abstracted: each
bounded polling loop consumes a finite list of observations, and sleeps
are recorded as events in an execution trace.
-/

namespace PyScan

/-! ### Values carried by stream messages -/

/-- A raw value carried in a bsread channel or used as a configured
default (`None`, a number, or a string). -/
inductive Value where
  | none
  | int (i : Int)
  | str (s : String)
deriving DecidableEq, Repr

/-- The `default_value` slot of a property definition.  In the Python
source the Python class `Exception` itself is stored as a sentinel
meaning "raise on a missing field"; any other stored object is the
default value to substitute.  `exc` is that sentinel. -/
inductive DefaultValue where
  | exc
  | val (v : Value)
deriving DecidableEq, Repr

/-- A requested property: its channel identifier and its missing-field
policy (`default_value`). -/
structure PropertyDef where
  identifier : String
  default_value : DefaultValue
deriving DecidableEq, Repr

/-- The reference timestamp captured by `read()` at call time, already
decomposed the way the source decomposes the float returned by `time()`:
`sec = int(timestamp)` and `frac_ns = int(math.modf(timestamp)[0] * 1e9)`. -/
structure RefTime where
  sec : Nat
  frac_ns : Nat
deriving DecidableEq, Repr

/-- A bsread message: its global timestamp (seconds), the nanosecond
offset, and the mapping from channel name to value
(`message.data.data`). -/
structure Message where
  global_timestamp : Nat
  global_timestamp_offset : Nat
  data : List (String × Value)
deriving DecidableEq, Repr

/-- Dictionary lookup in the message's field mapping: Python's
`name in dict` / `dict[name]` pair. -/
def lookupField (data : List (String × Value)) (name : String) : Option Value :=
  match data.find? (fun kv => kv.1 == name) with
  | some kv => some kv.2
  | none => none

/-- Errors raised by the read interface. -/
inductive ReadError where
  | cacheEmpty
  | missingProperty (msg : String)
  | readTimeout
deriving DecidableEq, Repr

/-- Decidable equality on `Except`, so that concrete runs of the
fallible operations can be checked by evaluation. -/
instance {ε α : Type} [DecidableEq ε] [DecidableEq α] : DecidableEq (Except ε α) := by
  intro x y
  cases x with
  | error a =>
    cases y with
    | error b =>
      cases decEq a b with
      | isTrue h => exact isTrue (by rw [h])
      | isFalse h => exact isFalse (by intro hxy; cases hxy; exact h rfl)
    | ok b => exact isFalse (by intro hxy; cases hxy)
  | ok a =>
    cases y with
    | error b => exact isFalse (by intro hxy; cases hxy)
    | ok b =>
      cases decEq a b with
      | isTrue h => exact isTrue (by rw [h])
      | isFalse h => exact isFalse (by intro hxy; cases hxy; exact h rfl)

/-- `ReadGroupInterface.is_message_after_timestamp`: a pull that yielded
no message (`None`, falsy) is never after the timestamp; otherwise equal
seconds require the message nanosecond offset to be at least the
reference's fractional nanoseconds, and unequal seconds require the
message seconds to exceed the reference seconds. -/
def is_message_after_timestamp (message : Option Message) (timestamp : RefTime) : Bool :=
  match message with
  | Option.none => false
  | some m =>
    if m.global_timestamp == timestamp.sec then
      m.global_timestamp_offset ≥ timestamp.frac_ns
    else
      m.global_timestamp > timestamp.sec

/-- The single-quote character (ASCII 39), as a string. -/
def sq : String := String.singleton (Char.ofNat 39)

/-- Wrap a string in single quotes, as Python's `'%s'` formatting does. -/
def squote (s : String) : String := sq ++ s ++ sq

/-- `ReadGroupInterface._get_missing_property_default`: if the stored
default is the `Exception` sentinel, raise it with a message naming the
property; otherwise return the stored default value. -/
def _get_missing_property_default (property_definition : PropertyDef) : Except ReadError Value :=
  match property_definition.default_value with
  | DefaultValue.exc =>
      Except.error (ReadError.missingProperty
        ("Property " ++ squote property_definition.identifier ++ " missing in bs stream."))
  | DefaultValue.val v => Except.ok v

/-- The per-property extraction loop inside `_read_pvs_from_cache`: look
each property up in the message data; on a hit take the stored value, on
a miss apply `_get_missing_property_default`. -/
def extract_pvs (data : List (String × Value)) : List PropertyDef → Except ReadError (List Value)
  | [] => Except.ok []
  | p :: rest =>
    match lookupField data p.identifier with
    | some v => (extract_pvs data rest).map (fun vs => v :: vs)
    | Option.none =>
      match _get_missing_property_default p with
      | Except.error e => Except.error e
      | Except.ok v => (extract_pvs data rest).map (fun vs => v :: vs)

/-- The state of a `ReadGroupInterface` instance: the requested primary
properties, the monitor properties, and the message cache with its
timestamp (`_message_cache`, `_message_cache_timestamp`). -/
structure ReadGroupInterface where
  properties : List PropertyDef
  monitors : List PropertyDef
  _message_cache : Option Message
  _message_cache_timestamp : Option RefTime
deriving DecidableEq, Repr

/-- `ReadGroupInterface._read_pvs_from_cache`: raise if the cache is
empty, otherwise extract the requested properties from the cached
message. -/
def _read_pvs_from_cache (cache : Option Message) (properties : List PropertyDef) :
    Except ReadError (List Value) :=
  match cache with
  | Option.none => Except.error ReadError.cacheEmpty
  | some m => extract_pvs m.data properties

/-- `ReadGroupInterface.read`: repeatedly pull a message from the stream
until one is after the reference timestamp, cache it and extract the
primary properties from the cache.  The wall-clock timeout window is
embedded as the finite list `pulls` of receive results that occur before
the deadline: exhausting it is the timeout error. -/
def read (g : ReadGroupInterface) (read_timestamp : RefTime) :
    List (Option Message) → Except ReadError (List Value) × ReadGroupInterface
  | [] => (Except.error ReadError.readTimeout, g)
  | message :: rest =>
    if is_message_after_timestamp message read_timestamp then
      let g' := { g with _message_cache := message,
                         _message_cache_timestamp := some read_timestamp }
      (_read_pvs_from_cache g'._message_cache g'.properties, g')
    else
      read g read_timestamp rest

/-- `ReadGroupInterface.read_cached_monitors`: extract the monitor
properties from the currently cached message. -/
def read_cached_monitors (g : ReadGroupInterface) : Except ReadError (List Value) :=
  _read_pvs_from_cache g._message_cache g.monitors

/-- `ReadGroupInterface.close`: clear the message cache (the stream
disconnect has no observable effect in this model). -/
def close (g : ReadGroupInterface) : ReadGroupInterface :=
  { g with _message_cache := Option.none, _message_cache_timestamp := Option.none }

/-! ### Part 2: the scanner control loop (`pyscan/scanner.py`) -/

/-- Scan statuses (`STATUS_INITIALIZED`, `STATUS_RUNNING`,
`STATUS_FINISHED`, `STATUS_PAUSED`, `STATUS_ABORTED`). -/
inductive Status where
  | initialized
  | running
  | finished
  | paused
  | aborted
deriving DecidableEq, Repr

/-- One observation of the scanner's two user flags
(`_user_abort_scan_flag`, `_user_pause_scan_flag`). -/
structure Flags where
  abort : Bool
  pause : Bool
deriving DecidableEq, Repr

/-- The externally visible mutable fields of a `Scanner` touched by the
control methods: the two user flags and the status. -/
structure ScannerState where
  _user_abort_scan_flag : Bool
  _user_pause_scan_flag : Bool
  _status : Status
deriving DecidableEq, Repr

/-- `Scanner.abort_scan`: set the abort flag. -/
def abort_scan (s : ScannerState) : ScannerState :=
  { s with _user_abort_scan_flag := true }

/-- `Scanner.pause_scan`: set the pause flag. -/
def pause_scan (s : ScannerState) : ScannerState :=
  { s with _user_pause_scan_flag := true }

/-- `Scanner.resume_scan`: clear the pause flag. -/
def resume_scan (s : ScannerState) : ScannerState :=
  { s with _user_pause_scan_flag := false }

/-- `Scanner.get_status`. -/
def get_status (s : ScannerState) : Status :=
  s._status

/-- Outcome of `_verify_scan_status`. -/
inductive VerifyOutcome where
  | proceed
  | abortRaise
  | stillPaused
deriving DecidableEq, Repr

/-- The `while self._user_pause_scan_flag` wait loop inside
`_verify_scan_status`.  Each list entry is the flags the loop observes in
one polling round (the `sleep(config.scan_pause_sleep_interval)` between
rounds is abstracted away); an exhausted list means the pause never
cleared within the observations supplied, so the loop is still polling. -/
def pause_poll : List Flags → Status × VerifyOutcome
  | [] => (Status.paused, VerifyOutcome.stillPaused)
  | f :: rest =>
    if f.pause then
      if f.abort then (Status.aborted, VerifyOutcome.abortRaise)
      else pause_poll rest
    else (Status.running, VerifyOutcome.proceed)

/-- `Scanner._verify_scan_status`: abort raises at once; otherwise a set
pause flag puts the status to `paused` and enters the wait loop; with
neither flag set the status is left unchanged and the scan proceeds.
`obs` is the flags observed by the two entry checks and `polls` the flags
observed by the successive rounds of the wait loop. -/
def _verify_scan_status (st : Status) (obs : Flags) (polls : List Flags) :
    Status × VerifyOutcome :=
  if obs.abort then (Status.aborted, VerifyOutcome.abortRaise)
  else if obs.pause then pause_poll polls
  else (st, VerifyOutcome.proceed)

/-- Exceptions that can propagate out of the scan loop. -/
inductive ScanError (Pos Err : Type) where
  | retryExceeded (limit : Nat) (p : Pos)
  | userAbort
  | hookError (e : Err)
deriving DecidableEq, Repr

/-- The dynamic type of the data handed to
`data_processor.process(position, result)`: the bare measurement when
`n_measurements == 1`, a list otherwise. -/
inductive ReadResult (Meas : Type) where
  | single (m : Meas)
  | multiple (ms : List Meas)
deriving DecidableEq, Repr

/-- Observable events of one scan execution, in order: progress
callbacks, hook invocations, writer calls, reader calls, sleeps, and
data-processor calls. -/
inductive Ev (Pos Meas : Type) where
  | progress (done total : Nat)
  | initialization
  | before_move (p : Pos)
  | write (p : Pos)
  | sleep_settling
  | after_move (p : Pos)
  | before_meas (p : Pos)
  | reader_call
  | sleep_retry
  | sleep_interval
  | process (p : Pos) (r : ReadResult Meas)
  | after_meas (p : Pos)
  | finalization
deriving DecidableEq, Repr

/-- All collaborators and settings `discrete_scan` consults.  Hooks and
collaborators are optional and may raise (`Except.error`).  The reader is
indexed by a global call counter so that successive `reader()` calls can
return different measurements.  `flags idx` is the flag snapshot the
checkpoint after iteration `idx` observes, `polls idx` the snapshots its
pause-wait loop observes. -/
structure ScanEnv (Pos Meas Data Err : Type) where
  positions : List Pos
  n_measurements : Nat
  retry_limit : Nat
  validator : Pos → Meas → Bool
  reader : Nat → Meas
  writer : Option (Pos → Except Err Unit)
  before_move : Option (Pos → Except Err Unit)
  after_move : Option (Pos → Except Err Unit)
  before_meas : Option (Pos → Except Err Unit)
  after_meas : Option (Pos → Except Err Unit)
  initialization : Option (Except Err Unit)
  finalization : Option (Except Err Unit)
  process : Pos → ReadResult Meas → Except Err Unit
  get_data : Data
  flags : Nat → Flags
  polls : Nat → List Flags

/-- Invoke an optional hook on a position: absent hooks emit no event and
succeed; present hooks emit their event and may raise. -/
def run_opt_hook {Pos Meas Err : Type} (h : Option (Pos → Except Err Unit)) (p : Pos)
    (ev : Ev Pos Meas) : List (Ev Pos Meas) × Except (ScanError Pos Err) Unit :=
  match h with
  | Option.none => ([], Except.ok ())
  | some f =>
    match f p with
    | Except.error e => ([ev], Except.error (ScanError.hookError e))
    | Except.ok _ => ([ev], Except.ok ())

/-- `Scanner._perform_single_read`: call the reader, test the data with
the validator, and on invalid data sleep the retry delay and try again,
up to `remaining` further attempts (`config.scan_acquisition_retry_limit`
minus the attempts already made); exhausting the limit raises the
retry-exceeded error carrying the limit and the position.  Returns the
emitted events, the advanced reader counter, and the result. -/
def _perform_single_read {Pos Meas Err : Type} (reader : Nat → Meas)
    (validator : Pos → Meas → Bool) (limit : Nat) (current_position : Pos) (k : Nat) :
    Nat → List (Ev Pos Meas) × Nat × Except (ScanError Pos Err) Meas
  | 0 => ([], k, Except.error (ScanError.retryExceeded limit current_position))
  | remaining + 1 =>
    let m := reader k
    if validator current_position m then
      ([Ev.reader_call], k + 1, Except.ok m)
    else
      let r := _perform_single_read reader validator limit current_position (k + 1) remaining
      (Ev.reader_call :: Ev.sleep_retry :: r.1, r.2)

/-- The `for n_measurement in range(...)` loop of
`_read_and_process_data`: append one validated single read and sleep the
measurement interval, `n` times. -/
def multi_read {Pos Meas Err : Type} (reader : Nat → Meas) (validator : Pos → Meas → Bool)
    (limit : Nat) (p : Pos) (k : Nat) :
    Nat → List (Ev Pos Meas) × Nat × Except (ScanError Pos Err) (List Meas)
  | 0 => ([], k, Except.ok [])
  | n + 1 =>
    match _perform_single_read reader validator limit p k limit with
    | (evs, k', Except.error e) => (evs, k', Except.error e)
    | (evs, k', Except.ok m) =>
      match multi_read reader validator limit p k' n with
      | (evs2, k'', r) =>
        (evs ++ Ev.sleep_interval :: evs2, k'', r.map (fun ms => m :: ms))

/-- `Scanner._read_and_process_data`: a single acquisition when
`settings.n_measurements == 1`, otherwise a list built by the
measurement loop; the result is then handed to
`data_processor.process(current_position, result)`. -/
def _read_and_process_data {Pos Meas Data Err : Type} (env : ScanEnv Pos Meas Data Err)
    (current_position : Pos) (k : Nat) :
    List (Ev Pos Meas) × Nat × Except (ScanError Pos Err) (ReadResult Meas) :=
  let acquired :
      List (Ev Pos Meas) × Nat × Except (ScanError Pos Err) (ReadResult Meas) :=
    if env.n_measurements = 1 then
      match _perform_single_read env.reader env.validator env.retry_limit current_position k
          env.retry_limit with
      | (evs, k', Except.error e) => (evs, k', Except.error e)
      | (evs, k', Except.ok m) => (evs, k', Except.ok (ReadResult.single m))
    else
      match multi_read env.reader env.validator env.retry_limit current_position k
          env.n_measurements with
      | (evs, k', Except.error e) => (evs, k', Except.error e)
      | (evs, k', Except.ok ms) => (evs, k', Except.ok (ReadResult.multiple ms))
  match acquired with
  | (evs, k', Except.error e) => (evs, k', Except.error e)
  | (evs, k', Except.ok r) =>
    match env.process current_position r with
    | Except.error e =>
      (evs ++ [Ev.process current_position r], k', Except.error (ScanError.hookError e))
    | Except.ok _ =>
      (evs ++ [Ev.process current_position r], k', Except.ok r)

/-- The body of one `discrete_scan` loop iteration, before the progress
report and the checkpoint: before-move hook, writer, settling sleep,
after-move hook, before-measurement hook, read-and-process,
after-measurement hook.  Any raise stops the body. -/
def scan_iteration_body {Pos Meas Data Err : Type} (env : ScanEnv Pos Meas Data Err)
    (p : Pos) (k : Nat) : List (Ev Pos Meas) × Nat × Except (ScanError Pos Err) Unit :=
  let (e1, r1) := @run_opt_hook Pos Meas Err env.before_move p (Ev.before_move p)
  match r1 with
  | Except.error e => (e1, k, Except.error e)
  | Except.ok _ =>
    let (e2, r2) := @run_opt_hook Pos Meas Err env.writer p (Ev.write p)
    match r2 with
    | Except.error e => (e1 ++ e2, k, Except.error e)
    | Except.ok _ =>
      let e3 : List (Ev Pos Meas) := [Ev.sleep_settling]
      let (e4, r4) := @run_opt_hook Pos Meas Err env.after_move p (Ev.after_move p)
      match r4 with
      | Except.error e => (e1 ++ e2 ++ e3 ++ e4, k, Except.error e)
      | Except.ok _ =>
        let (e5, r5) := @run_opt_hook Pos Meas Err env.before_meas p (Ev.before_meas p)
        match r5 with
        | Except.error e => (e1 ++ e2 ++ e3 ++ e4 ++ e5, k, Except.error e)
        | Except.ok _ =>
          match _read_and_process_data env p k with
          | (e6, k', Except.error e) =>
            (e1 ++ e2 ++ e3 ++ e4 ++ e5 ++ e6, k', Except.error e)
          | (e6, k', Except.ok _) =>
            let (e7, r7) := @run_opt_hook Pos Meas Err env.after_meas p (Ev.after_meas p)
            (e1 ++ e2 ++ e3 ++ e4 ++ e5 ++ e6 ++ e7, k', r7)

/-- How the position loop of `discrete_scan` ends. -/
inductive LoopExit (Pos Err : Type) where
  | normal
  | raised (e : ScanError Pos Err)
  | hung
deriving DecidableEq, Repr

/-- The `for position_index, next_positions in zip(count(1), ...)` loop
of `discrete_scan`: run the body, report progress `(idx, total)`, then
checkpoint with `_verify_scan_status`.  `hung` marks a pause-wait loop
that exhausted its observations (in the source it would still be
polling, so the loop never exits). -/
def scan_loop {Pos Meas Data Err : Type} (env : ScanEnv Pos Meas Data Err) (total : Nat) :
    List Pos → Nat → Nat → Status → List (Ev Pos Meas) × Status × LoopExit Pos Err
  | [], _, _, st => ([], st, LoopExit.normal)
  | p :: rest, idx, k, st =>
    match scan_iteration_body env p k with
    | (evsB, _, Except.error e) => (evsB, st, LoopExit.raised e)
    | (evsB, k', Except.ok _) =>
      let evsP := evsB ++ [Ev.progress idx total]
      match _verify_scan_status st (env.flags idx) (env.polls idx) with
      | (st', VerifyOutcome.abortRaise) =>
        (evsP, st', LoopExit.raised ScanError.userAbort)
      | (st', VerifyOutcome.stillPaused) => (evsP, st', LoopExit.hung)
      | (st', VerifyOutcome.proceed) =>
        match scan_loop env total rest (idx + 1) k' st' with
        | (evs2, st'', ex) => (evsP ++ evs2, st'', ex)

/-- How `discrete_scan` as a whole ends: the returned
`data_processor.get_data()`, a propagated exception, or a pause-wait
loop that never exits. -/
inductive ScanOutcome (Pos Data Err : Type) where
  | done (d : Data)
  | raised (e : ScanError Pos Err)
  | hung
deriving DecidableEq, Repr

/-- The `finally` block of `discrete_scan`: run the finalization hook if
configured (a raise there replaces the pending outcome and skips the
status update), then set the status to `finished` unless it is
`aborted`. -/
def apply_finally {Pos Meas Data Err : Type} (env : ScanEnv Pos Meas Data Err)
    (evs : List (Ev Pos Meas)) (st : Status) (pending : ScanOutcome Pos Data Err) :
    List (Ev Pos Meas) × Status × ScanOutcome Pos Data Err :=
  match env.finalization with
  | some (Except.error e) =>
    (evs ++ [Ev.finalization], st, ScanOutcome.raised (ScanError.hookError e))
  | some (Except.ok _) =>
    let st' := if st = Status.aborted then st else Status.finished
    (evs ++ [Ev.finalization], st', pending)
  | Option.none =>
    let st' := if st = Status.aborted then st else Status.finished
    (evs, st', pending)

/-- `Scanner.discrete_scan`: set the status to running, count the
positions, report zero progress, run the initialization hook, run the
position loop, and in all cases except a never-ending pause wait run the
`finally` block; a completed loop returns
`data_processor.get_data()`. -/
def discrete_scan {Pos Meas Data Err : Type} (env : ScanEnv Pos Meas Data Err) :
    List (Ev Pos Meas) × Status × ScanOutcome Pos Data Err :=
  let total := env.positions.length
  let evs0 : List (Ev Pos Meas) := [Ev.progress 0 total]
  let initStep : List (Ev Pos Meas) × Except (ScanError Pos Err) Unit :=
    match env.initialization with
    | Option.none => ([], Except.ok ())
    | some (Except.error e) => ([Ev.initialization], Except.error (ScanError.hookError e))
    | some (Except.ok _) => ([Ev.initialization], Except.ok ())
  match initStep with
  | (evsI, Except.error e) =>
    apply_finally env (evs0 ++ evsI) Status.running (ScanOutcome.raised e)
  | (evsI, Except.ok _) =>
    match scan_loop env total env.positions 1 0 Status.running with
    | (evsL, st, LoopExit.hung) => (evs0 ++ evsI ++ evsL, st, ScanOutcome.hung)
    | (evsL, st, LoopExit.normal) =>
      apply_finally env (evs0 ++ evsI ++ evsL) st (ScanOutcome.done env.get_data)
    | (evsL, st, LoopExit.raised e) =>
      apply_finally env (evs0 ++ evsI ++ evsL) st (ScanOutcome.raised e)

/-- How the outer scan invocation ends. -/
inductive ScanResult (Pos Data Err : Type) where
  | completed (d : Data)
  | abortedReturn
  | failed (e : ScanError Pos Err)
  | hung
deriving DecidableEq, Repr

/-- Modelled from the spec: the outer scan invocation (the `scan`
wrapper, not under `src/`) that calls `discrete_scan` and catches the
user-abort control error, so that an aborted scan returns to its invoker
without raising while every other error propagates. -/
def scan_invocation {Pos Meas Data Err : Type} (env : ScanEnv Pos Meas Data Err) :
    List (Ev Pos Meas) × Status × ScanResult Pos Data Err :=
  match discrete_scan env with
  | (evs, st, ScanOutcome.done d) => (evs, st, ScanResult.completed d)
  | (evs, st, ScanOutcome.raised (ScanError.userAbort)) =>
    (evs, st, ScanResult.abortedReturn)
  | (evs, st, ScanOutcome.raised e) => (evs, st, ScanResult.failed e)
  | (evs, st, ScanOutcome.hung) => (evs, st, ScanResult.hung)

/-! ### Lemmas about the synchronized stream reader -/

/-- A rejected pull is skipped and polling continues. -/
theorem read_skip (g : ReadGroupInterface) (ts : RefTime) (p : Option Message)
    (rest : List (Option Message)) (h : is_message_after_timestamp p ts = false) :
    read g ts (p :: rest) = read g ts rest := by
  simp [read, h]

/-- An accepted pull ends the poll loop: the message is cached and the
primary properties are extracted from it. -/
theorem read_accept (g : ReadGroupInterface) (ts : RefTime) (p : Option Message)
    (rest : List (Option Message)) (h : is_message_after_timestamp p ts = true) :
    read g ts (p :: rest) =
      (_read_pvs_from_cache p g.properties,
       { g with _message_cache := p, _message_cache_timestamp := some ts }) := by
  simp [read, h]

/-- A pull accepted by `is_message_after_timestamp` carries a message. -/
theorem accepted_is_some (p : Option Message) (ts : RefTime)
    (h : is_message_after_timestamp p ts = true) : ∃ m, p = some m := by
  cases p with
  | none => simp [is_message_after_timestamp] at h
  | some m => exact ⟨m, rfl⟩

/-- C4: a message is accepted iff its seconds exceed the reference
seconds, or the seconds agree and its nanosecond offset is at least the
reference's fractional nanoseconds; an empty pull (`None`) is rejected
and polling continues; `read` caches the first accepted message and
returns the field values extracted from it. -/
theorem timestamp_acceptance :
    (∀ (m : Message) (ts : RefTime),
        is_message_after_timestamp (some m) ts = true ↔
          (ts.sec < m.global_timestamp ∨
            (m.global_timestamp = ts.sec ∧ ts.frac_ns ≤ m.global_timestamp_offset))) ∧
    (∀ ts : RefTime, is_message_after_timestamp Option.none ts = false) ∧
    (∀ (g : ReadGroupInterface) (ts : RefTime) (rest : List (Option Message)),
        read g ts (Option.none :: rest) = read g ts rest) ∧
    (∀ (g : ReadGroupInterface) (ts : RefTime) (pulls : List (Option Message)) (i : Nat)
        (m : Message),
        ((pulls.take i).all fun pj => !(is_message_after_timestamp pj ts)) = true →
        pulls.get? i = some (some m) →
        is_message_after_timestamp (some m) ts = true →
        read g ts pulls =
          (_read_pvs_from_cache (some m) g.properties,
           { g with _message_cache := some m, _message_cache_timestamp := some ts })) := by
  refine ⟨?_, ?_, ?_, ?_⟩
  · intro m ts
    by_cases h : m.global_timestamp = ts.sec
    · simp [is_message_after_timestamp, h]
    · simp [is_message_after_timestamp, h]
  · intro ts
    simp [is_message_after_timestamp]
  · intro g ts rest
    exact read_skip g ts Option.none rest (by simp [is_message_after_timestamp])
  · intro g ts pulls
    induction pulls with
    | nil => intro i m _ hget; simp at hget
    | cons p rest ih =>
      intro i m hall hget hacc
      cases i with
      | zero =>
        simp at hget
        subst hget
        exact read_accept g ts (some m) rest hacc
      | succ j =>
        simp [List.take, List.all_cons] at hall
        rw [read_skip g ts p rest (by simpa using hall.1)]
        exact ih j m (by simpa using hall.2) (by simpa using hget) hacc

/-- Witness for C4: with reference time 10s+500ns, a pull sequence of an
empty pull, a 9s message and a 10s+500ns message skips the first two and
accepts the third. -/
theorem timestamp_acceptance_witness :
    ((([Option.none, some ⟨9, 999999999, [("X", Value.int 1), ("M", Value.int 7)]⟩,
        some ⟨10, 500, [("X", Value.int 2), ("M", Value.int 8)]⟩] :
          List (Option Message)).take 2).all
        fun pj => !(is_message_after_timestamp pj ⟨10, 500⟩)) = true ∧
    read ⟨[⟨"X", DefaultValue.exc⟩], [⟨"M", DefaultValue.exc⟩], Option.none, Option.none⟩
        ⟨10, 500⟩
        [Option.none, some ⟨9, 999999999, [("X", Value.int 1), ("M", Value.int 7)]⟩,
         some ⟨10, 500, [("X", Value.int 2), ("M", Value.int 8)]⟩] =
      (_read_pvs_from_cache (some ⟨10, 500, [("X", Value.int 2), ("M", Value.int 8)]⟩)
          [⟨"X", DefaultValue.exc⟩],
       ⟨[⟨"X", DefaultValue.exc⟩], [⟨"M", DefaultValue.exc⟩],
        some ⟨10, 500, [("X", Value.int 2), ("M", Value.int 8)]⟩, some ⟨10, 500⟩⟩) :=
  ⟨by decide,
   timestamp_acceptance.2.2.2 _ _ _ 2 _ (by decide) (by decide) (by decide)⟩

/-- C5 as stated is false: a field absent from the message whose policy
is to raise produces the message `Property 'invalid' missing in bs
stream.`, not `Property 'invalid' missing in stream.` as the claim
says. -/
theorem missing_field_message_counterexample :
    extract_pvs [("X", Value.int 1)] [⟨"invalid", DefaultValue.exc⟩] =
      Except.error (ReadError.missingProperty
        ("Property " ++ squote "invalid" ++ " missing in bs stream.")) ∧
    ("Property " ++ squote "invalid" ++ " missing in bs stream.") ≠
      ("Property " ++ squote "invalid" ++ " missing in stream.") := by
  constructor
  · rfl
  · decide

/-- C5 (amended): for the first requested field, a present field yields
its stored value in the field's place, an absent field whose policy is
to raise raises `Property '<id>' missing in bs stream.` naming the
field, and an absent field with a configured default yields that default
in the field's place. -/
theorem missing_field_policy (data : List (String × Value)) (p : PropertyDef)
    (rest : List PropertyDef) :
    (∀ v, lookupField data p.identifier = some v →
        extract_pvs data (p :: rest) = (extract_pvs data rest).map (fun vs => v :: vs)) ∧
    (lookupField data p.identifier = Option.none → p.default_value = DefaultValue.exc →
        extract_pvs data (p :: rest) =
          Except.error (ReadError.missingProperty
            ("Property " ++ squote p.identifier ++ " missing in bs stream."))) ∧
    (∀ d, lookupField data p.identifier = Option.none →
        p.default_value = DefaultValue.val d →
        extract_pvs data (p :: rest) = (extract_pvs data rest).map (fun vs => d :: vs)) := by
  refine ⟨?_, ?_, ?_⟩
  · intro v hv
    simp [extract_pvs, hv]
  · intro hmiss hexc
    simp [extract_pvs, hmiss, _get_missing_property_default, hexc]
  · intro d hmiss hd
    simp [extract_pvs, hmiss, _get_missing_property_default, hd]

/-- Witness for the amended C5: a message holding only `X = 2`; `X` is
returned as stored, a missing `invalid` with the raise policy raises the
bs-stream message, a missing field with default `-999` yields `-999`,
and a missing field with default `None` yields `None`. -/
theorem missing_field_policy_witness :
    lookupField [("X", Value.int 2)] "X" = some (Value.int 2) ∧
    extract_pvs [("X", Value.int 2)] [⟨"X", DefaultValue.exc⟩] = Except.ok [Value.int 2] ∧
    lookupField [("X", Value.int 2)] "invalid" = Option.none ∧
    extract_pvs [("X", Value.int 2)] [⟨"invalid", DefaultValue.exc⟩] =
      Except.error (ReadError.missingProperty
        ("Property " ++ squote "invalid" ++ " missing in bs stream.")) ∧
    extract_pvs [("X", Value.int 2)] [⟨"invalid2", DefaultValue.val (Value.int (-999))⟩] =
      Except.ok [Value.int (-999)] ∧
    extract_pvs [("X", Value.int 2)] [⟨"invalid3", DefaultValue.val Value.none⟩] =
      Except.ok [Value.none] := by
  refine ⟨by decide, ?_, by decide, ?_, ?_, ?_⟩
  · have h := (missing_field_policy [("X", Value.int 2)] ⟨"X", DefaultValue.exc⟩ []).1
      (Value.int 2) (by decide)
    simpa [extract_pvs] using h
  · exact (missing_field_policy [("X", Value.int 2)] ⟨"invalid", DefaultValue.exc⟩ []).2.1
      (by decide) rfl
  · have h := (missing_field_policy [("X", Value.int 2)]
      ⟨"invalid2", DefaultValue.val (Value.int (-999))⟩ []).2.2 (Value.int (-999))
      (by decide) rfl
    simpa [extract_pvs] using h
  · have h := (missing_field_policy [("X", Value.int 2)]
      ⟨"invalid3", DefaultValue.val Value.none⟩ []).2.2 Value.none (by decide) rfl
    simpa [extract_pvs] using h

/-- C1: after a successful `read`, the cache holds exactly the message
that read accepted, and both the returned property values and
`read_cached_monitors` are extracted from that same message; with an
empty cache (no successful read yet, or after `close`),
`read_cached_monitors` fails with the empty-cache error. -/
theorem monitors_share_primary_snapshot :
    (∀ (g : ReadGroupInterface) (ts : RefTime) (pulls : List (Option Message))
        (vals : List Value) (g' : ReadGroupInterface),
        read g ts pulls = (Except.ok vals, g') →
        ∃ m, some m ∈ pulls ∧ is_message_after_timestamp (some m) ts = true ∧
          g'._message_cache = some m ∧
          Except.ok vals = _read_pvs_from_cache (some m) g.properties ∧
          read_cached_monitors g' = _read_pvs_from_cache (some m) g.monitors) ∧
    (∀ g : ReadGroupInterface, g._message_cache = Option.none →
        read_cached_monitors g = Except.error ReadError.cacheEmpty) ∧
    (∀ g : ReadGroupInterface,
        read_cached_monitors (close g) = Except.error ReadError.cacheEmpty) := by
  refine ⟨?_, ?_, ?_⟩
  · intro g ts pulls
    induction pulls with
    | nil =>
      intro vals g' h
      simp [read] at h
    | cons p rest ih =>
      intro vals g' h
      by_cases hacc : is_message_after_timestamp p ts = true
      · obtain ⟨m, rfl⟩ := accepted_is_some p ts hacc
        rw [read_accept g ts (some m) rest hacc] at h
        obtain ⟨hres, hg'⟩ := Prod.mk.injEq .. ▸ h
        refine ⟨m, by simp, hacc, ?_, ?_, ?_⟩
        · rw [← hg']
        · exact hres ▸ rfl
        · rw [← hg']
          rfl
      · rw [read_skip g ts p rest (by simpa using hacc)] at h
        obtain ⟨m, hmem, hacc', hcache, hres, hmon⟩ := ih vals g' h
        exact ⟨m, List.mem_cons_of_mem p hmem, hacc', hcache, hres, hmon⟩
  · intro g hnone
    simp [read_cached_monitors, hnone, _read_pvs_from_cache]
  · intro g
    simp [read_cached_monitors, close, _read_pvs_from_cache]

/-- Witness for C1: the concrete read of the C4 witness caches the
10s+500ns message; its monitors are then read from that same message,
and both an untouched interface and a closed one fail the monitor
read. -/
theorem monitors_share_primary_snapshot_witness :
    read ⟨[⟨"X", DefaultValue.exc⟩], [⟨"M", DefaultValue.exc⟩], Option.none, Option.none⟩
        ⟨10, 500⟩
        [Option.none, some ⟨9, 999999999, [("X", Value.int 1), ("M", Value.int 7)]⟩,
         some ⟨10, 500, [("X", Value.int 2), ("M", Value.int 8)]⟩] =
      (Except.ok [Value.int 2],
       ⟨[⟨"X", DefaultValue.exc⟩], [⟨"M", DefaultValue.exc⟩],
        some ⟨10, 500, [("X", Value.int 2), ("M", Value.int 8)]⟩, some ⟨10, 500⟩⟩) ∧
    (∃ m, some m ∈ [Option.none,
          some (⟨9, 999999999, [("X", Value.int 1), ("M", Value.int 7)]⟩ : Message),
          some ⟨10, 500, [("X", Value.int 2), ("M", Value.int 8)]⟩] ∧
        is_message_after_timestamp (some m) ⟨10, 500⟩ = true ∧
        (⟨[⟨"X", DefaultValue.exc⟩], [⟨"M", DefaultValue.exc⟩],
          some ⟨10, 500, [("X", Value.int 2), ("M", Value.int 8)]⟩,
          some ⟨10, 500⟩⟩ : ReadGroupInterface)._message_cache = some m ∧
        Except.ok [Value.int 2] = _read_pvs_from_cache (some m) [⟨"X", DefaultValue.exc⟩] ∧
        read_cached_monitors
            ⟨[⟨"X", DefaultValue.exc⟩], [⟨"M", DefaultValue.exc⟩],
             some ⟨10, 500, [("X", Value.int 2), ("M", Value.int 8)]⟩, some ⟨10, 500⟩⟩ =
          _read_pvs_from_cache (some m) [⟨"M", DefaultValue.exc⟩]) :=
  ⟨by decide,
   monitors_share_primary_snapshot.1
     ⟨[⟨"X", DefaultValue.exc⟩], [⟨"M", DefaultValue.exc⟩], Option.none, Option.none⟩
     ⟨10, 500⟩
     [Option.none, some ⟨9, 999999999, [("X", Value.int 1), ("M", Value.int 7)]⟩,
      some ⟨10, 500, [("X", Value.int 2), ("M", Value.int 8)]⟩]
     [Value.int 2]
     ⟨[⟨"X", DefaultValue.exc⟩], [⟨"M", DefaultValue.exc⟩],
      some ⟨10, 500, [("X", Value.int 2), ("M", Value.int 8)]⟩, some ⟨10, 500⟩⟩
     (by decide)⟩

/-- `extract_pvs` never fails with the read-timeout error: its only
errors are the missing-property raise. -/
theorem extract_pvs_no_timeout (data : List (String × Value)) :
    ∀ props : List PropertyDef,
      extract_pvs data props ≠ Except.error ReadError.readTimeout := by
  intro props
  induction props with
  | nil => simp [extract_pvs]
  | cons p rest ih =>
    simp only [extract_pvs]
    cases hl : lookupField data p.identifier with
    | some v =>
      cases hrest : extract_pvs data rest with
      | error e => simp [hrest, Except.map]; intro h; exact ih (hrest ▸ h ▸ rfl)
      | ok vs => simp [hrest, Except.map]
    | none =>
      cases hd : p.default_value with
      | exc => simp [_get_missing_property_default, hd]
      | val d =>
        simp only [_get_missing_property_default, hd]
        cases hrest : extract_pvs data rest with
        | error e => simp [Except.map]; intro h; exact ih (hrest ▸ h ▸ rfl)
        | ok vs => simp [Except.map]

/-- `_read_pvs_from_cache` never fails with the read-timeout error. -/
theorem read_pvs_no_timeout (cache : Option Message) (props : List PropertyDef) :
    _read_pvs_from_cache cache props ≠ Except.error ReadError.readTimeout := by
  cases cache with
  | none => simp [_read_pvs_from_cache]
  | some m => exact extract_pvs_no_timeout m.data props

/-- C10: a `read` that fails with the timeout error leaves the whole
interface state (in particular the message cache and its timestamp)
unchanged, so a subsequent `read_cached_monitors` behaves exactly as it
did before the failed read, and still fails with the empty-cache error
when nothing was ever cached. -/
theorem failed_read_preserves_cache :
    ∀ (g : ReadGroupInterface) (ts : RefTime) (pulls : List (Option Message))
      (g' : ReadGroupInterface),
      read g ts pulls = (Except.error ReadError.readTimeout, g') →
      g' = g ∧ read_cached_monitors g' = read_cached_monitors g ∧
        (g._message_cache = Option.none →
          read_cached_monitors g' = Except.error ReadError.cacheEmpty) := by
  intro g ts pulls
  induction pulls with
  | nil =>
    intro g' h
    simp [read] at h
    subst h
    refine ⟨rfl, rfl, ?_⟩
    intro hnone
    simp [read_cached_monitors, hnone, _read_pvs_from_cache]
  | cons p rest ih =>
    intro g' h
    by_cases hacc : is_message_after_timestamp p ts = true
    · rw [read_accept g ts p rest hacc] at h
      exact absurd (congrArg Prod.fst h)
        (by simpa using read_pvs_no_timeout p g.properties)
    · rw [read_skip g ts p rest (by simpa using hacc)] at h
      exact ih g' h

/-- Witness for C10: an interface already holding the 10s+500ns message
sees only stale pulls; the read times out, the state is unchanged, and
the monitors still come from the previously cached message. -/
theorem failed_read_preserves_cache_witness :
    read ⟨[⟨"X", DefaultValue.exc⟩], [⟨"M", DefaultValue.exc⟩],
          some ⟨10, 500, [("X", Value.int 2), ("M", Value.int 8)]⟩, some ⟨10, 500⟩⟩
        ⟨11, 0⟩ [some ⟨9, 999999999, [("X", Value.int 1), ("M", Value.int 7)]⟩, Option.none] =
      (Except.error ReadError.readTimeout,
       ⟨[⟨"X", DefaultValue.exc⟩], [⟨"M", DefaultValue.exc⟩],
        some ⟨10, 500, [("X", Value.int 2), ("M", Value.int 8)]⟩, some ⟨10, 500⟩⟩) ∧
    ((⟨[⟨"X", DefaultValue.exc⟩], [⟨"M", DefaultValue.exc⟩],
       some ⟨10, 500, [("X", Value.int 2), ("M", Value.int 8)]⟩, some ⟨10, 500⟩⟩ :
         ReadGroupInterface) =
       ⟨[⟨"X", DefaultValue.exc⟩], [⟨"M", DefaultValue.exc⟩],
        some ⟨10, 500, [("X", Value.int 2), ("M", Value.int 8)]⟩, some ⟨10, 500⟩⟩ ∧
     read_cached_monitors
         ⟨[⟨"X", DefaultValue.exc⟩], [⟨"M", DefaultValue.exc⟩],
          some ⟨10, 500, [("X", Value.int 2), ("M", Value.int 8)]⟩, some ⟨10, 500⟩⟩ =
       read_cached_monitors
         ⟨[⟨"X", DefaultValue.exc⟩], [⟨"M", DefaultValue.exc⟩],
          some ⟨10, 500, [("X", Value.int 2), ("M", Value.int 8)]⟩, some ⟨10, 500⟩⟩ ∧
     ((⟨[⟨"X", DefaultValue.exc⟩], [⟨"M", DefaultValue.exc⟩],
        some ⟨10, 500, [("X", Value.int 2), ("M", Value.int 8)]⟩, some ⟨10, 500⟩⟩ :
          ReadGroupInterface)._message_cache = Option.none →
       read_cached_monitors
           ⟨[⟨"X", DefaultValue.exc⟩], [⟨"M", DefaultValue.exc⟩],
            some ⟨10, 500, [("X", Value.int 2), ("M", Value.int 8)]⟩, some ⟨10, 500⟩⟩ =
         Except.error ReadError.cacheEmpty)) :=
  ⟨by decide,
   failed_read_preserves_cache
     ⟨[⟨"X", DefaultValue.exc⟩], [⟨"M", DefaultValue.exc⟩],
      some ⟨10, 500, [("X", Value.int 2), ("M", Value.int 8)]⟩, some ⟨10, 500⟩⟩
     ⟨11, 0⟩
     [some ⟨9, 999999999, [("X", Value.int 1), ("M", Value.int 7)]⟩, Option.none]
     ⟨[⟨"X", DefaultValue.exc⟩], [⟨"M", DefaultValue.exc⟩],
      some ⟨10, 500, [("X", Value.int 2), ("M", Value.int 8)]⟩, some ⟨10, 500⟩⟩
     (by decide)⟩

/-! ### Lemmas about the acquisition retry loop -/

/-- With an always-rejecting validator, `fuel` remaining attempts each
read once, sleep the retry delay, and finally raise the retry-exceeded
error naming the configured limit and the position. -/
theorem perform_single_read_all_invalid {Pos Meas Err : Type} (reader : Nat → Meas)
    (validator : Pos → Meas → Bool) (limit : Nat) (p : Pos) :
    ∀ (fuel k : Nat), (∀ j, validator p (reader j) = false) →
      @_perform_single_read Pos Meas Err reader validator limit p k fuel =
        ((List.replicate fuel ([Ev.reader_call, Ev.sleep_retry] : List (Ev Pos Meas))).flatten,
         k + fuel, Except.error (ScanError.retryExceeded limit p)) := by
  intro fuel
  induction fuel with
  | zero => intro k _; simp [_perform_single_read]
  | succ f ih =>
    intro k h
    simp only [_perform_single_read, h k, Bool.false_eq_true, if_false, List.replicate_succ,
      List.flatten_cons, ih (k + 1) h, Prod.mk.injEq]
    exact ⟨by simp, by omega, trivial⟩

/-- If the validator first accepts at the `(i+1)`-st attempt and the
remaining-attempt budget allows it, the accepted measurement is
returned with no error, after `i` rejected read/sleep rounds and one
final read. -/
theorem perform_single_read_accepts {Pos Meas Err : Type} (reader : Nat → Meas)
    (validator : Pos → Meas → Bool) (limit : Nat) (p : Pos) :
    ∀ (i fuel k : Nat), i < fuel →
      (∀ j, j < i → validator p (reader (k + j)) = false) →
      validator p (reader (k + i)) = true →
      @_perform_single_read Pos Meas Err reader validator limit p k fuel =
        ((List.replicate i ([Ev.reader_call, Ev.sleep_retry] : List (Ev Pos Meas))).flatten ++
           [Ev.reader_call],
         k + i + 1, Except.ok (reader (k + i))) := by
  intro i
  induction i with
  | zero =>
    intro fuel k hlt _ hacc
    cases fuel with
    | zero => omega
    | succ f =>
      simp only [Nat.add_zero] at hacc
      simp [_perform_single_read, hacc]
  | succ i ih =>
    intro fuel k hlt hrej hacc
    cases fuel with
    | zero => omega
    | succ f =>
      have h0 : validator p (reader k) = false := by
        have := hrej 0 (Nat.succ_pos i)
        simpa using this
      have hrej' : ∀ j, j < i → validator p (reader (k + 1 + j)) = false := by
        intro j hj
        have := hrej (j + 1) (by omega)
        have he : k + (j + 1) = k + 1 + j := by omega
        rwa [he] at this
      have hacc' : validator p (reader (k + 1 + i)) = true := by
        have he : k + (i + 1) = k + 1 + i := by omega
        rwa [he] at hacc
      have he : k + 1 + i = k + (i + 1) := by omega
      simp only [_perform_single_read, h0, Bool.false_eq_true, if_false, List.replicate_succ,
        ih f (k + 1) (by omega) hrej' hacc', List.flatten_cons, Prod.mk.injEq]
      exact ⟨by simp, by omega, by rw [he]⟩

/-- C3: a validator that rejects every measurement makes the acquisition
perform exactly `limit` reader attempts, with the retry-delay sleep
between consecutive attempts, and then raise the retry-exceeded error
carrying the limit and the position; a validator that accepts the k-th
measurement for some k ≤ limit makes it return that measurement with no
error. -/
theorem retry_acquisition {Pos Meas Err : Type} (reader : Nat → Meas)
    (validator : Pos → Meas → Bool) (limit : Nat) (p : Pos) (k : Nat) :
    ((∀ j, validator p (reader j) = false) →
      @_perform_single_read Pos Meas Err reader validator limit p k limit =
        ((List.replicate limit ([Ev.reader_call, Ev.sleep_retry] : List (Ev Pos Meas))).flatten,
         k + limit, Except.error (ScanError.retryExceeded limit p))) ∧
    (∀ i, i < limit → (∀ j, j < i → validator p (reader (k + j)) = false) →
      validator p (reader (k + i)) = true →
      @_perform_single_read Pos Meas Err reader validator limit p k limit =
        ((List.replicate i ([Ev.reader_call, Ev.sleep_retry] : List (Ev Pos Meas))).flatten ++
           [Ev.reader_call],
         k + i + 1, Except.ok (reader (k + i)))) :=
  ⟨fun h => perform_single_read_all_invalid reader validator limit p limit k h,
   fun i hi hrej hacc =>
     perform_single_read_accepts reader validator limit p i limit k hi hrej hacc⟩

/-- Witness for C3 with retry limit 3: an always-rejecting validator
yields three read/sleep rounds and the retry-exceeded error; a validator
accepting the second measurement yields that measurement after one
rejected round. -/
theorem retry_acquisition_witness :
    (∀ j : Nat, (fun (_ : Nat) (_ : Nat) => false) 0 ((fun j => j) j) = false) ∧
    @_perform_single_read Nat Nat Unit (fun j => j) (fun _ _ => false) 3 0 0 3 =
      ((List.replicate 3 ([Ev.reader_call, Ev.sleep_retry] : List (Ev Nat Nat))).flatten,
       0 + 3, Except.error (ScanError.retryExceeded 3 0)) ∧
    @_perform_single_read Nat Nat Unit (fun j => j) (fun _ m => m == 1) 3 0 0 3 =
      ((List.replicate 1 ([Ev.reader_call, Ev.sleep_retry] : List (Ev Nat Nat))).flatten ++
         [Ev.reader_call],
       0 + 1 + 1, Except.ok ((fun j => j) (0 + 1))) :=
  ⟨fun _ => rfl,
   (retry_acquisition (fun j => j) (fun _ _ => false) 3 0 0).1 (fun _ => rfl),
   (retry_acquisition (fun j => j) (fun _ m => m == 1) 3 0 0).2 1 (by decide)
     (by decide) (by decide)⟩

/-- Recognize a data-processor call event. -/
def isProcessEv {Pos Meas : Type} : Ev Pos Meas → Bool
  | Ev.process _ _ => true
  | _ => false

/-- The acquisition retry loop emits only reader calls and retry
sleeps. -/
theorem perform_single_read_events {Pos Meas Err : Type} (reader : Nat → Meas)
    (validator : Pos → Meas → Bool) (limit : Nat) (p : Pos) :
    ∀ (fuel k : Nat),
      ∀ e ∈ (@_perform_single_read Pos Meas Err reader validator limit p k fuel).1,
        e = Ev.reader_call ∨ e = Ev.sleep_retry := by
  intro fuel
  induction fuel with
  | zero => intro k e he; simp [_perform_single_read] at he
  | succ f ih =>
    intro k e he
    by_cases hv : validator p (reader k) = true
    · simp [_perform_single_read, hv] at he
      exact Or.inl he
    · simp only [_perform_single_read, hv, Bool.false_eq_true, if_false,
        List.mem_cons] at he
      rcases he with h | h | h
      · exact Or.inl h
      · exact Or.inr h
      · exact ih (k + 1) e h

/-- The measurement loop emits only reader calls, retry sleeps, and
inter-measurement sleeps. -/
theorem multi_read_events {Pos Meas Err : Type} (reader : Nat → Meas)
    (validator : Pos → Meas → Bool) (limit : Nat) (p : Pos) :
    ∀ (n k : Nat),
      ∀ e ∈ (@multi_read Pos Meas Err reader validator limit p k n).1,
        e = Ev.reader_call ∨ e = Ev.sleep_retry ∨ e = Ev.sleep_interval := by
  intro n
  induction n with
  | zero => intro k e he; simp [multi_read] at he
  | succ m ih =>
    intro k e he
    rcases hr : @_perform_single_read Pos Meas Err reader validator limit p k limit with
      ⟨evs, k1, res⟩
    cases res with
    | error err =>
      simp only [multi_read, hr] at he
      rcases perform_single_read_events reader validator limit p limit k e
        (by rw [hr]; exact he) with h | h
      · exact Or.inl h
      · exact Or.inr (Or.inl h)
    | ok mval =>
      rcases hm : @multi_read Pos Meas Err reader validator limit p k1 m with ⟨evs2, k2, r2⟩
      simp only [multi_read, hr, hm, List.mem_append, List.mem_cons] at he
      rcases he with h | h | h
      · rcases perform_single_read_events reader validator limit p limit k e
          (by rw [hr]; exact h) with h' | h'
        · exact Or.inl h'
        · exact Or.inr (Or.inl h')
      · exact Or.inr (Or.inr h)
      · exact ih k1 e (by rw [hm]; exact h)

/-- A successful measurement loop returns exactly as many measurements
as requested. -/
theorem multi_read_length {Pos Meas Err : Type} (reader : Nat → Meas)
    (validator : Pos → Meas → Bool) (limit : Nat) (p : Pos) :
    ∀ (n k : Nat) (evs : List (Ev Pos Meas)) (k' : Nat) (ms : List Meas),
      @multi_read Pos Meas Err reader validator limit p k n = (evs, k', Except.ok ms) →
      ms.length = n := by
  intro n
  induction n with
  | zero =>
    intro k evs k' ms h
    simp [multi_read] at h
    simp [h.2.2]
  | succ m ih =>
    intro k evs k' ms h
    rcases hr : @_perform_single_read Pos Meas Err reader validator limit p k limit with
      ⟨evs1, k1, res⟩
    cases res with
    | error err => simp [multi_read, hr] at h
    | ok mval =>
      rcases hm : @multi_read Pos Meas Err reader validator limit p k1 m with ⟨evs2, k2, r2⟩
      cases r2 with
      | error err => simp [multi_read, hr, hm, Except.map] at h
      | ok ms2 =>
        simp only [multi_read, hr, hm, Except.map, Prod.mk.injEq] at h
        obtain ⟨-, -, hms⟩ := h
        cases hms
        simp [ih k1 evs2 k2 ms2 hm]

/-- With an always-accepting validator, the measurement loop performs
one reader call per measurement with the inter-measurement sleep after
each, and returns the measurements in reader-call order. -/
theorem multi_read_all_valid {Pos Meas Err : Type} (reader : Nat → Meas)
    (validator : Pos → Meas → Bool) (limit : Nat) (p : Pos)
    (hv : ∀ m, validator p m = true) (hl : 1 ≤ limit) :
    ∀ (n k : Nat),
      @multi_read Pos Meas Err reader validator limit p k n =
        ((List.replicate n ([Ev.reader_call, Ev.sleep_interval] : List (Ev Pos Meas))).flatten,
         k + n, Except.ok ((List.range n).map fun j => reader (k + j))) := by
  intro n
  induction n with
  | zero => intro k; simp [multi_read]
  | succ m ih =>
    intro k
    have hsingle :
        @_perform_single_read Pos Meas Err reader validator limit p k limit =
          ([Ev.reader_call], k + 1, Except.ok (reader k)) := by
      have h := @perform_single_read_accepts Pos Meas Err reader validator limit p 0 limit k
        (by omega) (by intro j hj; omega) (by simpa using hv (reader k))
      simpa using h
    simp only [multi_read, hsingle, ih (k + 1), Except.map, List.replicate_succ,
      List.flatten_cons, Prod.mk.injEq]
    refine ⟨by simp, by omega, ?_⟩
    rw [List.range_succ_eq_map]
    simp only [List.map_cons, List.map_map, Nat.add_zero]
    have hmap : List.map (fun j => reader (k + 1 + j)) (List.range m) =
        List.map ((fun j => reader (k + j)) ∘ Nat.succ) (List.range m) := by
      apply List.map_congr_left
      intro j _
      simp only [Function.comp_apply]
      congr 1
      omega
    rw [hmap]

/-- C9: on a successful acquisition the data processor is handed the
bare single measurement when one measurement per position is configured,
and an ordered list of exactly `n` measurements when `n ≠ 1` are, each
obtained by the acquire-and-validate-with-retry loop with the
measurement-interval sleep between repeats; the processor is called
exactly once per position, with exactly that result. -/
theorem measurement_packaging {Pos Meas Data Err : Type} (env : ScanEnv Pos Meas Data Err)
    (p : Pos) (k : Nat) :
    (env.n_measurements = 1 →
      ∀ evs k' r, _read_and_process_data env p k = (evs, k', Except.ok r) →
        ∃ m evs1,
          @_perform_single_read Pos Meas Err env.reader env.validator env.retry_limit p k
              env.retry_limit = (evs1, k', Except.ok m) ∧
          r = ReadResult.single m ∧
          evs = evs1 ++ [Ev.process p (ReadResult.single m)]) ∧
    (env.n_measurements ≠ 1 →
      ∀ evs k' r, _read_and_process_data env p k = (evs, k', Except.ok r) →
        ∃ ms evsM,
          @multi_read Pos Meas Err env.reader env.validator env.retry_limit p k
              env.n_measurements = (evsM, k', Except.ok ms) ∧
          r = ReadResult.multiple ms ∧ ms.length = env.n_measurements ∧
          evs = evsM ++ [Ev.process p (ReadResult.multiple ms)]) ∧
    ((∀ m, env.validator p m = true) → 1 ≤ env.retry_limit →
      @multi_read Pos Meas Err env.reader env.validator env.retry_limit p k
          env.n_measurements =
        ((List.replicate env.n_measurements
            ([Ev.reader_call, Ev.sleep_interval] : List (Ev Pos Meas))).flatten,
         k + env.n_measurements,
         Except.ok ((List.range env.n_measurements).map fun j => env.reader (k + j)))) ∧
    (∀ evs k' r, _read_and_process_data env p k = (evs, k', Except.ok r) →
      evs.countP (fun e => isProcessEv e) = 1) := by
  have hmain :
      ∀ evs k' r, _read_and_process_data env p k = (evs, k', Except.ok r) →
        ∃ evsA, evs = evsA ++ [Ev.process p r] ∧
          (∀ e ∈ evsA, isProcessEv e = false) ∧
          ((env.n_measurements = 1 →
            ∃ m, r = ReadResult.single m ∧
              @_perform_single_read Pos Meas Err env.reader env.validator env.retry_limit p k
                env.retry_limit = (evsA, k', Except.ok m)) ∧
          (env.n_measurements ≠ 1 →
            ∃ ms, r = ReadResult.multiple ms ∧
              @multi_read Pos Meas Err env.reader env.validator env.retry_limit p k
                env.n_measurements = (evsA, k', Except.ok ms))) := by
    intro evs k' r h
    simp only [_read_and_process_data] at h
    by_cases hn : env.n_measurements = 1
    · rw [if_pos hn] at h
      rcases hr : @_perform_single_read Pos Meas Err env.reader env.validator env.retry_limit
          p k env.retry_limit with ⟨evs1, k1, res⟩
      rw [hr] at h
      cases res with
      | error err => simp at h
      | ok m =>
        cases hp : env.process p (ReadResult.single m) with
        | error err => simp [hp] at h
        | ok u =>
          simp only [hp, Prod.mk.injEq] at h
          obtain ⟨hevs, hk, hrr⟩ := h
          cases hrr
          refine ⟨evs1, by rw [← hevs], ?_, ?_, ?_⟩
          · intro e he
            rcases perform_single_read_events env.reader env.validator env.retry_limit p
              env.retry_limit k e (by rw [hr]; exact he) with h' | h' <;>
              simp [h', isProcessEv]
          · intro _
            exact ⟨m, rfl, by rw [hk]⟩
          · intro hne; exact absurd hn hne
    · rw [if_neg hn] at h
      rcases hm : @multi_read Pos Meas Err env.reader env.validator env.retry_limit p k
          env.n_measurements with ⟨evsM, k1, res⟩
      rw [hm] at h
      cases res with
      | error err => simp at h
      | ok ms =>
        cases hp : env.process p (ReadResult.multiple ms) with
        | error err => simp [hp] at h
        | ok u =>
          simp only [hp, Prod.mk.injEq] at h
          obtain ⟨hevs, hk, hrr⟩ := h
          cases hrr
          refine ⟨evsM, by rw [← hevs], ?_, ?_, ?_⟩
          · intro e he
            rcases multi_read_events env.reader env.validator env.retry_limit p
              env.n_measurements k e (by rw [hm]; exact he) with h' | h' | h' <;>
              simp [h', isProcessEv]
          · intro h1; exact absurd h1 hn
          · intro _
            exact ⟨ms, rfl, by rw [hk]⟩
  refine ⟨?_, ?_, ?_, ?_⟩
  · intro h1 evs k' r h
    obtain ⟨evsA, hevs, -, hsingle, -⟩ := hmain evs k' r h
    obtain ⟨m, hr, hpsr⟩ := hsingle h1
    exact ⟨m, evsA, hpsr, hr, by rw [hevs, hr]⟩
  · intro hne evs k' r h
    obtain ⟨evsA, hevs, -, -, hmulti⟩ := hmain evs k' r h
    obtain ⟨ms, hr, hmr⟩ := hmulti hne
    exact ⟨ms, evsA, hmr,
      hr, multi_read_length env.reader env.validator env.retry_limit p
        env.n_measurements k evsA k' ms hmr, by rw [hevs, hr]⟩
  · intro hv hl
    exact multi_read_all_valid env.reader env.validator env.retry_limit p hv hl
      env.n_measurements k
  · intro evs k' r h
    obtain ⟨evsA, hevs, hnoproc, -⟩ := hmain evs k' r h
    rw [hevs, List.countP_append]
    have h0 : evsA.countP (fun e => isProcessEv e) = 0 := by
      rw [List.countP_eq_zero]
      intro e he
      simpa using hnoproc e he
    simp [h0, isProcessEv]
    intro a ha
    simpa [isProcessEv] using hnoproc a ha

/-- A concrete scan environment used by the witnesses: three positions,
one measurement per position, retry limit 3, an always-accepting
validator, no flags ever set, and non-raising hooks. -/
def envW : ScanEnv Nat Nat Nat Unit where
  positions := [5, 6, 7]
  n_measurements := 1
  retry_limit := 3
  validator := fun _ _ => true
  reader := fun j => j + 100
  writer := some fun _ => Except.ok ()
  before_move := Option.none
  after_move := Option.none
  before_meas := Option.none
  after_meas := Option.none
  initialization := some (Except.ok ())
  finalization := some (Except.ok ())
  process := fun _ _ => Except.ok ()
  get_data := 42
  flags := fun _ => ⟨false, false⟩
  polls := fun _ => []

/-- The witness environment with two measurements per position. -/
def envMultiW : ScanEnv Nat Nat Nat Unit :=
  { envW with n_measurements := 2 }

/-- Witness for C9: in the single-measurement environment the processor
receives the bare measurement `100`; in the two-measurement environment
the measurement loop performs two reads with the interval sleep after
each and returns the two measurements in order. -/
theorem measurement_packaging_witness :
    (envW.n_measurements = 1 ∧
      (∃ m evs1,
        @_perform_single_read Nat Nat Unit envW.reader envW.validator envW.retry_limit 5 0
            envW.retry_limit = (evs1, 1, Except.ok m) ∧
        ReadResult.single (100 : Nat) = ReadResult.single m ∧
        ([Ev.reader_call, Ev.process 5 (ReadResult.single (100 : Nat))] : List (Ev Nat Nat)) =
          evs1 ++ [Ev.process 5 (ReadResult.single m)])) ∧
    ((∀ m : Nat, envMultiW.validator 5 m = true) ∧ 1 ≤ envMultiW.retry_limit ∧
      @multi_read Nat Nat Unit envMultiW.reader envMultiW.validator envMultiW.retry_limit 5 0
          envMultiW.n_measurements =
        ((List.replicate envMultiW.n_measurements
            ([Ev.reader_call, Ev.sleep_interval] : List (Ev Nat Nat))).flatten,
         0 + envMultiW.n_measurements,
         Except.ok ((List.range envMultiW.n_measurements).map fun j =>
           envMultiW.reader (0 + j)))) :=
  ⟨⟨rfl, (measurement_packaging envW 5 0).1 rfl
      [Ev.reader_call, Ev.process 5 (ReadResult.single 100)] 1 (ReadResult.single 100)
      (by decide)⟩,
   ⟨fun _ => rfl, by decide,
    (measurement_packaging envMultiW 5 0).2.2.1 (fun _ => rfl) (by decide)⟩⟩

/-- C8: the control methods set or clear their flag and touch nothing
else; at a checkpoint a set abort flag wins over everything and makes
the status `aborted`; a set pause flag (with no abort) makes the status
`paused` and hands control to the wait loop, which re-checks abort on
every poll, aborts as soon as it sees the abort flag, and returns the
status to `running` as soon as the pause flag clears; with neither flag
set the checkpoint proceeds with the status unchanged; and the loop-body
work of an iteration is entirely independent of the flag state, so flag
writes never preempt an in-flight move or measurement. -/
theorem flags_checkpoint_semantics :
    (∀ s : ScannerState,
      (abort_scan s)._status = s._status ∧
      (abort_scan s)._user_pause_scan_flag = s._user_pause_scan_flag ∧
      (abort_scan s)._user_abort_scan_flag = true ∧
      (pause_scan s)._status = s._status ∧
      (pause_scan s)._user_abort_scan_flag = s._user_abort_scan_flag ∧
      (pause_scan s)._user_pause_scan_flag = true ∧
      (resume_scan s)._status = s._status ∧
      (resume_scan s)._user_abort_scan_flag = s._user_abort_scan_flag ∧
      (resume_scan s)._user_pause_scan_flag = false) ∧
    (∀ (st : Status) (obs : Flags) (polls : List Flags), obs.abort = true →
      _verify_scan_status st obs polls = (Status.aborted, VerifyOutcome.abortRaise)) ∧
    (∀ (st : Status) (obs : Flags) (polls : List Flags),
      obs.abort = false → obs.pause = true →
      _verify_scan_status st obs polls = pause_poll polls) ∧
    (∀ (waiting : List Flags) (f : Flags) (rest : List Flags),
      (∀ fp ∈ waiting, fp.pause = true ∧ fp.abort = false) →
      f.pause = true → f.abort = true →
      pause_poll (waiting ++ f :: rest) = (Status.aborted, VerifyOutcome.abortRaise)) ∧
    (∀ (waiting : List Flags) (f : Flags) (rest : List Flags),
      (∀ fp ∈ waiting, fp.pause = true ∧ fp.abort = false) →
      f.pause = false →
      pause_poll (waiting ++ f :: rest) = (Status.running, VerifyOutcome.proceed)) ∧
    (∀ (st : Status) (polls : List Flags),
      _verify_scan_status st ⟨false, false⟩ polls = (st, VerifyOutcome.proceed)) ∧
    (∀ (Pos Meas Data Err : Type) (env : ScanEnv Pos Meas Data Err)
        (newflags : Nat → Flags) (newpolls : Nat → List Flags) (p : Pos) (k : Nat),
      scan_iteration_body { env with flags := newflags, polls := newpolls } p k =
        scan_iteration_body env p k) ∧
    (∀ (Pos Meas Data Err : Type) (env : ScanEnv Pos Meas Data Err) (total : Nat)
        (p : Pos) (rest : List Pos) (idx k : Nat) (evsB : List (Ev Pos Meas)) (kB : Nat)
        (st1 : Status),
      scan_iteration_body env p k = (evsB, kB, Except.ok ()) →
      _verify_scan_status Status.running (env.flags idx) (env.polls idx) =
        (st1, VerifyOutcome.proceed) →
      scan_loop env total (p :: rest) idx k Status.running =
        ((evsB ++ [Ev.progress idx total]) ++ (scan_loop env total rest (idx + 1) kB st1).1,
         (scan_loop env total rest (idx + 1) kB st1).2.1,
         (scan_loop env total rest (idx + 1) kB st1).2.2)) := by
  refine ⟨fun s => ⟨rfl, rfl, rfl, rfl, rfl, rfl, rfl, rfl, rfl⟩, ?_, ?_, ?_, ?_, ?_, ?_, ?_⟩
  · intro st obs polls h
    simp [_verify_scan_status, h]
  · intro st obs polls h1 h2
    simp [_verify_scan_status, h1, h2]
  · intro waiting f rest hw hp ha
    induction waiting with
    | nil => simp [pause_poll, hp, ha]
    | cons w ws ih =>
      have hww := hw w (by simp)
      simp only [List.cons_append, pause_poll, hww.1, hww.2, Bool.false_eq_true, if_false,
        if_true]
      exact ih (fun fp hfp => hw fp (by simp [hfp]))
  · intro waiting f rest hw hp
    induction waiting with
    | nil => simp [pause_poll, hp]
    | cons w ws ih =>
      have hww := hw w (by simp)
      simp only [List.cons_append, pause_poll, hww.1, hww.2, Bool.false_eq_true, if_false,
        if_true]
      exact ih (fun fp hfp => hw fp (by simp [hfp]))
  · intro st polls
    simp [_verify_scan_status]
  · intro Pos Meas Data Err env newflags newpolls p k
    rfl
  · intro Pos Meas Data Err env total p rest idx k evsB kB st1 hb hv
    rcases hl : scan_loop env total rest (idx + 1) kB st1 with ⟨evs2, st2, ex2⟩
    simp [scan_loop, hb, hv, hl]

/-- Witness for C8 at concrete states: the three control methods on a
running scanner with clear flags, an abort observed at a checkpoint, a
pause wait that sees an abort on its second poll, and a pause wait whose
flag clears on its second poll. -/
theorem flags_checkpoint_semantics_witness :
    ((abort_scan ⟨false, false, Status.running⟩)._status = Status.running ∧
      (abort_scan ⟨false, false, Status.running⟩)._user_abort_scan_flag = true ∧
      (pause_scan ⟨false, false, Status.running⟩)._user_pause_scan_flag = true ∧
      (resume_scan ⟨false, true, Status.running⟩)._user_pause_scan_flag = false) ∧
    _verify_scan_status Status.running ⟨true, true⟩ [] =
      (Status.aborted, VerifyOutcome.abortRaise) ∧
    _verify_scan_status Status.running ⟨false, true⟩ [⟨false, true⟩, ⟨true, true⟩] =
      pause_poll [⟨false, true⟩, ⟨true, true⟩] ∧
    pause_poll ([⟨false, true⟩] ++ ⟨true, true⟩ :: []) =
      (Status.aborted, VerifyOutcome.abortRaise) ∧
    pause_poll ([⟨false, true⟩] ++ ⟨false, false⟩ :: []) =
      (Status.running, VerifyOutcome.proceed) ∧
    _verify_scan_status Status.running ⟨false, false⟩ [] =
      (Status.running, VerifyOutcome.proceed) ∧
    scan_iteration_body { envW with flags := fun _ => ⟨true, true⟩ } 5 0 =
      scan_iteration_body envW 5 0 ∧
    scan_loop envW 3 [5, 6, 7] 1 0 Status.running =
      (([Ev.write 5, Ev.sleep_settling, Ev.reader_call,
          Ev.process 5 (ReadResult.single 100)] ++ [Ev.progress 1 3]) ++
         (scan_loop envW 3 [6, 7] 2 1 Status.running).1,
       (scan_loop envW 3 [6, 7] 2 1 Status.running).2.1,
       (scan_loop envW 3 [6, 7] 2 1 Status.running).2.2) :=
  ⟨⟨((flags_checkpoint_semantics.1 ⟨false, false, Status.running⟩)).1,
    ((flags_checkpoint_semantics.1 ⟨false, false, Status.running⟩)).2.2.1,
    ((flags_checkpoint_semantics.1 ⟨false, false, Status.running⟩)).2.2.2.2.2.1,
    ((flags_checkpoint_semantics.1 ⟨false, true, Status.running⟩)).2.2.2.2.2.2.2.2⟩,
   flags_checkpoint_semantics.2.1 Status.running ⟨true, true⟩ [] rfl,
   flags_checkpoint_semantics.2.2.1 Status.running ⟨false, true⟩
     [⟨false, true⟩, ⟨true, true⟩] rfl rfl,
   flags_checkpoint_semantics.2.2.2.1 [⟨false, true⟩] ⟨true, true⟩ []
     (by decide) rfl rfl,
   flags_checkpoint_semantics.2.2.2.2.1 [⟨false, true⟩] ⟨false, false⟩ []
     (by decide) rfl,
   flags_checkpoint_semantics.2.2.2.2.2.1 Status.running [],
   flags_checkpoint_semantics.2.2.2.2.2.2.1 Nat Nat Nat Unit envW
     (fun _ => ⟨true, true⟩) envW.polls 5 0,
   flags_checkpoint_semantics.2.2.2.2.2.2.2 Nat Nat Nat Unit envW 3 5 [6, 7] 1 0
     [Ev.write 5, Ev.sleep_settling, Ev.reader_call, Ev.process 5 (ReadResult.single 100)]
     1 Status.running (by decide) (by decide)⟩

/-! ### Infrastructure for the full control-loop proofs -/

/-- All configured hooks and collaborators of an environment return
successfully. -/
structure NonRaising {Pos Meas Data Err : Type} (env : ScanEnv Pos Meas Data Err) : Prop where
  before_move : ∀ f, env.before_move = some f → ∀ p, f p = Except.ok ()
  writer : ∀ f, env.writer = some f → ∀ p, f p = Except.ok ()
  after_move : ∀ f, env.after_move = some f → ∀ p, f p = Except.ok ()
  before_meas : ∀ f, env.before_meas = some f → ∀ p, f p = Except.ok ()
  after_meas : ∀ f, env.after_meas = some f → ∀ p, f p = Except.ok ()
  process : ∀ p r, env.process p r = Except.ok ()
  init : ∀ r, env.initialization = some r → r = Except.ok ()
  fin : ∀ r, env.finalization = some r → r = Except.ok ()

/-- The event list a configured-or-absent hook contributes. -/
def hook_evs {Pos Meas T : Type} (h : Option T) (ev : Ev Pos Meas) : List (Ev Pos Meas) :=
  match h with
  | Option.none => []
  | some _ => [ev]

/-- A non-raising optional hook emits its event (when configured) and
succeeds. -/
theorem run_opt_hook_clean {Pos Meas Err : Type} (h : Option (Pos → Except Err Unit))
    (hok : ∀ f, h = some f → ∀ p, f p = Except.ok ()) (p : Pos) (ev : Ev Pos Meas) :
    @run_opt_hook Pos Meas Err h p ev = (hook_evs h ev, Except.ok ()) := by
  cases h with
  | none => rfl
  | some f => simp [run_opt_hook, hok f rfl p, hook_evs]

/-- Every event an optional hook emits is its own event. -/
theorem run_opt_hook_events {Pos Meas Err : Type} (h : Option (Pos → Except Err Unit))
    (p : Pos) (ev : Ev Pos Meas) :
    ∀ e ∈ (@run_opt_hook Pos Meas Err h p ev).1, e = ev := by
  intro e he
  cases h with
  | none => simp [run_opt_hook] at he
  | some f =>
    cases hf : f p with
    | error err => simp [run_opt_hook, hf] at he; exact he
    | ok u => simp [run_opt_hook, hf] at he; exact he

/-- With one configured measurement, an always-accepting validator and a
positive retry limit, one position's read-and-process step does a single
reader call and hands the processor the bare measurement. -/
theorem read_and_process_clean {Pos Meas Data Err : Type} (env : ScanEnv Pos Meas Data Err)
    (p : Pos) (k : Nat) (hn : env.n_measurements = 1)
    (hv : ∀ m, env.validator p m = true) (hl : 1 ≤ env.retry_limit)
    (hp : ∀ r, env.process p r = Except.ok ()) :
    _read_and_process_data env p k =
      ([Ev.reader_call, Ev.process p (ReadResult.single (env.reader k))], k + 1,
       Except.ok (ReadResult.single (env.reader k))) := by
  have hsingle :
      @_perform_single_read Pos Meas Err env.reader env.validator env.retry_limit p k
          env.retry_limit = ([Ev.reader_call], k + 1, Except.ok (env.reader k)) := by
    have h := @perform_single_read_accepts Pos Meas Err env.reader env.validator
      env.retry_limit p 0 env.retry_limit k (by omega) (by intro j hj; omega)
      (by simpa using hv (env.reader k))
    simpa using h
  simp [_read_and_process_data, hn, hsingle, hp (ReadResult.single (env.reader k))]

/-- The event trace of one clean loop iteration: the configured hooks in
order, the settling sleep, the single reader call, and the processor
call with the bare measurement. -/
def clean_iter_evs {Pos Meas Data Err : Type} (env : ScanEnv Pos Meas Data Err) (p : Pos)
    (k : Nat) : List (Ev Pos Meas) :=
  hook_evs env.before_move (Ev.before_move p) ++ hook_evs env.writer (Ev.write p) ++
    [Ev.sleep_settling] ++ hook_evs env.after_move (Ev.after_move p) ++
    hook_evs env.before_meas (Ev.before_meas p) ++
    [Ev.reader_call, Ev.process p (ReadResult.single (env.reader k))] ++
    hook_evs env.after_meas (Ev.after_meas p)

/-- A clean iteration body: emits `clean_iter_evs`, advances the reader
counter by one, and succeeds. -/
theorem scan_iteration_body_clean {Pos Meas Data Err : Type}
    (env : ScanEnv Pos Meas Data Err) (hnr : NonRaising env) (hn : env.n_measurements = 1)
    (hv : ∀ p m, env.validator p m = true) (hl : 1 ≤ env.retry_limit) (p : Pos) (k : Nat) :
    scan_iteration_body env p k = (clean_iter_evs env p k, k + 1, Except.ok ()) := by
  simp only [scan_iteration_body,
    run_opt_hook_clean env.before_move hnr.before_move p (Ev.before_move p),
    run_opt_hook_clean env.writer hnr.writer p (Ev.write p),
    run_opt_hook_clean env.after_move hnr.after_move p (Ev.after_move p),
    run_opt_hook_clean env.before_meas hnr.before_meas p (Ev.before_meas p),
    run_opt_hook_clean env.after_meas hnr.after_meas p (Ev.after_meas p),
    read_and_process_clean env p k hn (hv p) hl (hnr.process p)]
  simp [clean_iter_evs]

/-- Every event of one position's read-and-process step is a reader
call, a sleep, or the processor call for that position. -/
theorem read_and_process_events {Pos Meas Data Err : Type} (env : ScanEnv Pos Meas Data Err)
    (p : Pos) (k : Nat) :
    ∀ e ∈ (_read_and_process_data env p k).1,
      e = Ev.reader_call ∨ e = Ev.sleep_retry ∨ e = Ev.sleep_interval ∨
        ∃ r, e = Ev.process p r := by
  intro e he
  simp only [_read_and_process_data] at he
  by_cases hn : env.n_measurements = 1
  · rw [if_pos hn] at he
    rcases hr : @_perform_single_read Pos Meas Err env.reader env.validator env.retry_limit
        p k env.retry_limit with ⟨evs1, k1, res⟩
    rw [hr] at he
    cases res with
    | error err =>
      simp at he
      rcases perform_single_read_events env.reader env.validator env.retry_limit p
        env.retry_limit k e (by rw [hr]; exact he) with h | h
      · exact Or.inl h
      · exact Or.inr (Or.inl h)
    | ok m =>
      cases hp : env.process p (ReadResult.single m) with
      | error err =>
        simp only [hp, List.mem_append, List.mem_singleton] at he
        rcases he with h | h
        · rcases perform_single_read_events env.reader env.validator env.retry_limit p
            env.retry_limit k e (by rw [hr]; exact h) with h' | h'
          · exact Or.inl h'
          · exact Or.inr (Or.inl h')
        · exact Or.inr (Or.inr (Or.inr ⟨ReadResult.single m, h⟩))
      | ok u =>
        simp only [hp, List.mem_append, List.mem_singleton] at he
        rcases he with h | h
        · rcases perform_single_read_events env.reader env.validator env.retry_limit p
            env.retry_limit k e (by rw [hr]; exact h) with h' | h'
          · exact Or.inl h'
          · exact Or.inr (Or.inl h')
        · exact Or.inr (Or.inr (Or.inr ⟨ReadResult.single m, h⟩))
  · rw [if_neg hn] at he
    rcases hm : @multi_read Pos Meas Err env.reader env.validator env.retry_limit p k
        env.n_measurements with ⟨evsM, k1, res⟩
    rw [hm] at he
    cases res with
    | error err =>
      simp at he
      rcases multi_read_events env.reader env.validator env.retry_limit p
        env.n_measurements k e (by rw [hm]; exact he) with h | h | h
      · exact Or.inl h
      · exact Or.inr (Or.inl h)
      · exact Or.inr (Or.inr (Or.inl h))
    | ok ms =>
      cases hp : env.process p (ReadResult.multiple ms) with
      | error err =>
        simp only [hp, List.mem_append, List.mem_singleton] at he
        rcases he with h | h
        · rcases multi_read_events env.reader env.validator env.retry_limit p
            env.n_measurements k e (by rw [hm]; exact h) with h' | h' | h'
          · exact Or.inl h'
          · exact Or.inr (Or.inl h')
          · exact Or.inr (Or.inr (Or.inl h'))
        · exact Or.inr (Or.inr (Or.inr ⟨ReadResult.multiple ms, h⟩))
      | ok u =>
        simp only [hp, List.mem_append, List.mem_singleton] at he
        rcases he with h | h
        · rcases multi_read_events env.reader env.validator env.retry_limit p
            env.n_measurements k e (by rw [hm]; exact h) with h' | h' | h'
          · exact Or.inl h'
          · exact Or.inr (Or.inl h')
          · exact Or.inr (Or.inr (Or.inl h'))
        · exact Or.inr (Or.inr (Or.inr ⟨ReadResult.multiple ms, h⟩))

/-- The events an iteration body can emit: hook events for its position,
the writer call, sleeps, reader calls, and the processor call.  In
particular a body never emits a progress, initialization, or
finalization event. -/
theorem scan_iteration_body_events {Pos Meas Data Err : Type}
    (env : ScanEnv Pos Meas Data Err) (p : Pos) (k : Nat) :
    ∀ e ∈ (scan_iteration_body env p k).1,
      e = Ev.before_move p ∨ e = Ev.write p ∨ e = Ev.sleep_settling ∨ e = Ev.after_move p ∨
        e = Ev.before_meas p ∨ e = Ev.reader_call ∨ e = Ev.sleep_retry ∨
        e = Ev.sleep_interval ∨ (∃ r, e = Ev.process p r) ∨ e = Ev.after_meas p := by
  intro e he
  rcases h1 : @run_opt_hook Pos Meas Err env.before_move p (Ev.before_move p) with ⟨e1, r1⟩
  have hev1 : ∀ x ∈ e1, x = Ev.before_move p := by
    intro x hx
    exact run_opt_hook_events env.before_move p (Ev.before_move p) x (by rw [h1]; exact hx)
  cases r1 with
  | error err =>
    simp only [scan_iteration_body, h1] at he
    exact Or.inl (hev1 e he)
  | ok u1 =>
    rcases h2 : @run_opt_hook Pos Meas Err env.writer p (Ev.write p) with ⟨e2, r2⟩
    have hev2 : ∀ x ∈ e2, x = Ev.write p := by
      intro x hx
      exact run_opt_hook_events env.writer p (Ev.write p) x (by rw [h2]; exact hx)
    cases r2 with
    | error err =>
      simp only [scan_iteration_body, h1, h2, List.mem_append] at he
      rcases he with h | h
      · exact Or.inl (hev1 e h)
      · exact Or.inr (Or.inl (hev2 e h))
    | ok u2 =>
      rcases h4 : @run_opt_hook Pos Meas Err env.after_move p (Ev.after_move p) with ⟨e4, r4⟩
      have hev4 : ∀ x ∈ e4, x = Ev.after_move p := by
        intro x hx
        exact run_opt_hook_events env.after_move p (Ev.after_move p) x (by rw [h4]; exact hx)
      cases r4 with
      | error err =>
        simp only [scan_iteration_body, h1, h2, h4, List.mem_append, List.mem_singleton] at he
        rcases he with ((h | h) | h) | h
        · exact Or.inl (hev1 e h)
        · exact Or.inr (Or.inl (hev2 e h))
        · exact Or.inr (Or.inr (Or.inl h))
        · exact Or.inr (Or.inr (Or.inr (Or.inl (hev4 e h))))
      | ok u4 =>
        rcases h5 : @run_opt_hook Pos Meas Err env.before_meas p (Ev.before_meas p) with
          ⟨e5, r5⟩
        have hev5 : ∀ x ∈ e5, x = Ev.before_meas p := by
          intro x hx
          exact run_opt_hook_events env.before_meas p (Ev.before_meas p) x
            (by rw [h5]; exact hx)
        cases r5 with
        | error err =>
          simp only [scan_iteration_body, h1, h2, h4, h5, List.mem_append,
            List.mem_singleton] at he
          rcases he with (((h | h) | h) | h) | h
          · exact Or.inl (hev1 e h)
          · exact Or.inr (Or.inl (hev2 e h))
          · exact Or.inr (Or.inr (Or.inl h))
          · exact Or.inr (Or.inr (Or.inr (Or.inl (hev4 e h))))
          · exact Or.inr (Or.inr (Or.inr (Or.inr (Or.inl (hev5 e h)))))
        | ok u5 =>
          rcases h6 : _read_and_process_data env p k with ⟨e6, k6, r6⟩
          have hev6 : ∀ x ∈ e6,
              x = Ev.reader_call ∨ x = Ev.sleep_retry ∨ x = Ev.sleep_interval ∨
                ∃ r, x = Ev.process p r := by
            intro x hx
            exact read_and_process_events env p k x (by rw [h6]; exact hx)
          have hbig : ∀ x, x ∈ e1 ∨ x ∈ e2 ∨ x = Ev.sleep_settling ∨ x ∈ e4 ∨ x ∈ e5 ∨
              x ∈ e6 →
              x = Ev.before_move p ∨ x = Ev.write p ∨ x = Ev.sleep_settling ∨
                x = Ev.after_move p ∨ x = Ev.before_meas p ∨ x = Ev.reader_call ∨
                x = Ev.sleep_retry ∨ x = Ev.sleep_interval ∨ (∃ r, x = Ev.process p r) ∨
                x = Ev.after_meas p := by
            intro x hx
            rcases hx with h | h | h | h | h | h
            · exact Or.inl (hev1 x h)
            · exact Or.inr (Or.inl (hev2 x h))
            · exact Or.inr (Or.inr (Or.inl h))
            · exact Or.inr (Or.inr (Or.inr (Or.inl (hev4 x h))))
            · exact Or.inr (Or.inr (Or.inr (Or.inr (Or.inl (hev5 x h)))))
            · rcases hev6 x h with h' | h' | h' | h'
              · exact Or.inr (Or.inr (Or.inr (Or.inr (Or.inr (Or.inl h')))))
              · exact Or.inr (Or.inr (Or.inr (Or.inr (Or.inr (Or.inr (Or.inl h'))))))
              · exact Or.inr (Or.inr (Or.inr (Or.inr (Or.inr (Or.inr (Or.inr (Or.inl h')))))))
              · exact Or.inr (Or.inr (Or.inr (Or.inr (Or.inr (Or.inr (Or.inr (Or.inr
                  (Or.inl h'))))))))
          cases r6 with
          | error err =>
            simp only [scan_iteration_body, h1, h2, h4, h5, h6, List.mem_append,
              List.mem_singleton] at he
            rcases he with ((((h | h) | h) | h) | h) | h
            · exact hbig e (Or.inl h)
            · exact hbig e (Or.inr (Or.inl h))
            · exact hbig e (Or.inr (Or.inr (Or.inl h)))
            · exact hbig e (Or.inr (Or.inr (Or.inr (Or.inl h))))
            · exact hbig e (Or.inr (Or.inr (Or.inr (Or.inr (Or.inl h)))))
            · exact hbig e (Or.inr (Or.inr (Or.inr (Or.inr (Or.inr h)))))
          | ok u6 =>
            rcases h7 : @run_opt_hook Pos Meas Err env.after_meas p (Ev.after_meas p) with
              ⟨e7, r7⟩
            have hev7 : ∀ x ∈ e7, x = Ev.after_meas p := by
              intro x hx
              exact run_opt_hook_events env.after_meas p (Ev.after_meas p) x
                (by rw [h7]; exact hx)
            simp only [scan_iteration_body, h1, h2, h4, h5, h6, h7, List.mem_append,
              List.mem_singleton] at he
            rcases he with (((((h | h) | h) | h) | h) | h) | h
            · exact hbig e (Or.inl h)
            · exact hbig e (Or.inr (Or.inl h))
            · exact hbig e (Or.inr (Or.inr (Or.inl h)))
            · exact hbig e (Or.inr (Or.inr (Or.inr (Or.inl h))))
            · exact hbig e (Or.inr (Or.inr (Or.inr (Or.inr (Or.inl h)))))
            · exact hbig e (Or.inr (Or.inr (Or.inr (Or.inr (Or.inr h)))))
            · exact Or.inr (Or.inr (Or.inr (Or.inr (Or.inr (Or.inr (Or.inr (Or.inr
                (Or.inr (hev7 e h)))))))))

/-- The retry loop's only error is the retry-exceeded error. -/
theorem perform_single_read_error_shape {Pos Meas Err : Type} (reader : Nat → Meas)
    (validator : Pos → Meas → Bool) (limit : Nat) (p : Pos) :
    ∀ (fuel k : Nat) (e : ScanError Pos Err),
      (@_perform_single_read Pos Meas Err reader validator limit p k fuel).2.2 =
        Except.error e →
      e = ScanError.retryExceeded limit p := by
  intro fuel
  induction fuel with
  | zero =>
    intro k e h
    simp [_perform_single_read] at h
    exact h.symm
  | succ f ih =>
    intro k e h
    by_cases hv : validator p (reader k) = true
    · simp [_perform_single_read, hv] at h
    · simp only [_perform_single_read, hv, Bool.false_eq_true, if_false] at h
      exact ih (k + 1) e h

/-- The measurement loop's only error is the retry-exceeded error. -/
theorem multi_read_error_shape {Pos Meas Err : Type} (reader : Nat → Meas)
    (validator : Pos → Meas → Bool) (limit : Nat) (p : Pos) :
    ∀ (n k : Nat) (e : ScanError Pos Err),
      (@multi_read Pos Meas Err reader validator limit p k n).2.2 = Except.error e →
      e = ScanError.retryExceeded limit p := by
  intro n
  induction n with
  | zero => intro k e h; simp [multi_read] at h
  | succ m ih =>
    intro k e h
    rcases hr : @_perform_single_read Pos Meas Err reader validator limit p k limit with
      ⟨evs1, k1, res⟩
    cases res with
    | error err =>
      simp only [multi_read, hr] at h
      cases h
      exact perform_single_read_error_shape reader validator limit p limit k e
        (by rw [hr])
    | ok mval =>
      rcases hm : @multi_read Pos Meas Err reader validator limit p k1 m with ⟨evs2, k2, r2⟩
      cases r2 with
      | error e2 =>
        simp only [multi_read, hr, hm, Except.map] at h
        cases h
        exact ih k1 e (by rw [hm])
      | ok ms => simp [multi_read, hr, hm, Except.map] at h

/-- A failing read-and-process step raises either the retry-exceeded
error or a collaborator's error, never the user-abort control error. -/
theorem read_and_process_error_shape {Pos Meas Data Err : Type}
    (env : ScanEnv Pos Meas Data Err) (p : Pos) (k : Nat) :
    ∀ e : ScanError Pos Err,
      (_read_and_process_data env p k).2.2 = Except.error e →
      e ≠ ScanError.userAbort := by
  intro e h
  simp only [_read_and_process_data] at h
  by_cases hn : env.n_measurements = 1
  · rw [if_pos hn] at h
    rcases hr : @_perform_single_read Pos Meas Err env.reader env.validator env.retry_limit
        p k env.retry_limit with ⟨evs1, k1, res⟩
    rw [hr] at h
    cases res with
    | error err =>
      simp only at h
      cases h
      rw [perform_single_read_error_shape env.reader env.validator env.retry_limit p
        env.retry_limit k e (by rw [hr])]
      intro hcontra
      cases hcontra
    | ok m =>
      cases hp : env.process p (ReadResult.single m) with
      | error err =>
        simp only [hp] at h
        cases h
        intro hcontra
        cases hcontra
      | ok u => simp [hp] at h
  · rw [if_neg hn] at h
    rcases hm : @multi_read Pos Meas Err env.reader env.validator env.retry_limit p k
        env.n_measurements with ⟨evsM, k1, res⟩
    rw [hm] at h
    cases res with
    | error err =>
      simp only at h
      cases h
      rw [multi_read_error_shape env.reader env.validator env.retry_limit p
        env.n_measurements k e (by rw [hm])]
      intro hcontra
      cases hcontra
    | ok ms =>
      cases hp : env.process p (ReadResult.multiple ms) with
      | error err =>
        simp only [hp] at h
        cases h
        intro hcontra
        cases hcontra
      | ok u => simp [hp] at h

/-- A failing iteration body never raises the user-abort control error:
that error originates only at the checkpoint. -/
theorem scan_iteration_body_no_userabort {Pos Meas Data Err : Type}
    (env : ScanEnv Pos Meas Data Err) (p : Pos) (k : Nat) :
    ∀ e : ScanError Pos Err,
      (scan_iteration_body env p k).2.2 = Except.error e →
      e ≠ ScanError.userAbort := by
  intro e h
  have hhook : ∀ (ho : Option (Pos → Except Err Unit)) (ev : Ev Pos Meas)
      (e1 : ScanError Pos Err),
      (@run_opt_hook Pos Meas Err ho p ev).2 = Except.error e1 →
      e1 ≠ ScanError.userAbort := by
    intro ho ev e1 h1
    cases ho with
    | none => simp [run_opt_hook] at h1
    | some f =>
      cases hf : f p with
      | error err =>
        simp only [run_opt_hook, hf] at h1
        cases h1
        intro hcontra
        cases hcontra
      | ok u => simp [run_opt_hook, hf] at h1
  rcases h1 : @run_opt_hook Pos Meas Err env.before_move p (Ev.before_move p) with ⟨e1, r1⟩
  cases r1 with
  | error err =>
    simp only [scan_iteration_body, h1] at h
    cases h
    exact hhook env.before_move (Ev.before_move p) e (by rw [h1])
  | ok u1 =>
  rcases h2 : @run_opt_hook Pos Meas Err env.writer p (Ev.write p) with ⟨e2, r2⟩
  cases r2 with
  | error err =>
    simp only [scan_iteration_body, h1, h2] at h
    cases h
    exact hhook env.writer (Ev.write p) e (by rw [h2])
  | ok u2 =>
  rcases h4 : @run_opt_hook Pos Meas Err env.after_move p (Ev.after_move p) with ⟨e4, r4⟩
  cases r4 with
  | error err =>
    simp only [scan_iteration_body, h1, h2, h4] at h
    cases h
    exact hhook env.after_move (Ev.after_move p) e (by rw [h4])
  | ok u4 =>
  rcases h5 : @run_opt_hook Pos Meas Err env.before_meas p (Ev.before_meas p) with ⟨e5, r5⟩
  cases r5 with
  | error err =>
    simp only [scan_iteration_body, h1, h2, h4, h5] at h
    cases h
    exact hhook env.before_meas (Ev.before_meas p) e (by rw [h5])
  | ok u5 =>
  rcases h6 : _read_and_process_data env p k with ⟨e6, k6, r6⟩
  cases r6 with
  | error err =>
    simp only [scan_iteration_body, h1, h2, h4, h5, h6] at h
    cases h
    exact read_and_process_error_shape env p k e (by rw [h6])
  | ok u6 =>
  rcases h7 : @run_opt_hook Pos Meas Err env.after_meas p (Ev.after_meas p) with ⟨e7, r7⟩
  cases r7 with
  | error err =>
    simp only [scan_iteration_body, h1, h2, h4, h5, h6, h7] at h
    cases h
    exact hhook env.after_meas (Ev.after_meas p) e (by rw [h7])
  | ok u7 =>
    simp only [scan_iteration_body, h1, h2, h4, h5, h6, h7] at h
    cases h

/-- Statuses produced by the pause wait loop for each outcome. -/
theorem pause_poll_status (polls : List Flags) :
    ∀ (st : Status) (o : VerifyOutcome), pause_poll polls = (st, o) →
      (o = VerifyOutcome.proceed → st = Status.running) ∧
      (o = VerifyOutcome.abortRaise → st = Status.aborted) ∧
      (o = VerifyOutcome.stillPaused → st = Status.paused) := by
  induction polls with
  | nil =>
    intro st o h
    simp only [pause_poll, Prod.mk.injEq] at h
    obtain ⟨h1, h2⟩ := h
    subst h1
    subst h2
    refine ⟨?_, ?_, ?_⟩ <;> intro hc
    · cases hc
    · cases hc
    · rfl
  | cons f rest ih =>
    intro st o h
    by_cases hp : f.pause = true
    · by_cases ha : f.abort = true
      · simp only [pause_poll, hp, ha, if_true, Prod.mk.injEq] at h
        obtain ⟨h1, h2⟩ := h
        subst h1
        subst h2
        refine ⟨?_, ?_, ?_⟩ <;> intro hc
        · cases hc
        · rfl
        · cases hc
      · simp only [pause_poll, hp, ha, if_true, Bool.false_eq_true, if_false] at h
        exact ih st o h
    · simp only [pause_poll, hp, Bool.false_eq_true, if_false, Prod.mk.injEq] at h
      obtain ⟨h1, h2⟩ := h
      subst h1
      subst h2
      refine ⟨?_, ?_, ?_⟩ <;> intro hc
      · rfl
      · cases hc
      · cases hc

/-- Statuses produced by a checkpoint for each outcome. -/
theorem verify_status_cases (st : Status) (obs : Flags) (polls : List Flags) :
    ∀ (st2 : Status) (o : VerifyOutcome), _verify_scan_status st obs polls = (st2, o) →
      (o = VerifyOutcome.proceed → (st2 = st ∨ st2 = Status.running)) ∧
      (o = VerifyOutcome.abortRaise → st2 = Status.aborted) ∧
      (o = VerifyOutcome.stillPaused → st2 = Status.paused) := by
  intro st2 o h
  by_cases ha : obs.abort = true
  · simp only [_verify_scan_status, ha, if_true, Prod.mk.injEq] at h
    obtain ⟨h1, h2⟩ := h
    subst h1
    subst h2
    refine ⟨?_, ?_, ?_⟩ <;> intro hc
    · cases hc
    · rfl
    · cases hc
  · by_cases hp : obs.pause = true
    · simp only [_verify_scan_status, ha, hp, if_true, Bool.false_eq_true, if_false] at h
      obtain ⟨c1, c2, c3⟩ := pause_poll_status polls st2 o h
      exact ⟨fun ho => Or.inr (c1 ho), c2, c3⟩
    · simp only [_verify_scan_status, ha, hp, Bool.false_eq_true, if_false,
        Prod.mk.injEq] at h
      obtain ⟨h1, h2⟩ := h
      subst h1
      subst h2
      refine ⟨?_, ?_, ?_⟩ <;> intro hc
      · exact Or.inl rfl
      · cases hc
      · cases hc

/-- Across a whole loop run started in the running state, the final
status is `aborted` exactly when the loop raised the user-abort control
error, and a normally exhausted loop is still running. -/
theorem scan_loop_status {Pos Meas Data Err : Type} (env : ScanEnv Pos Meas Data Err)
    (total : Nat) :
    ∀ (ps : List Pos) (idx k : Nat) (evs : List (Ev Pos Meas)) (st : Status)
      (ex : LoopExit Pos Err),
      scan_loop env total ps idx k Status.running = (evs, st, ex) →
      (st = Status.aborted ↔ ex = LoopExit.raised ScanError.userAbort) ∧
      (ex = LoopExit.normal → st = Status.running) := by
  intro ps
  induction ps with
  | nil =>
    intro idx k evs st ex h
    simp only [scan_loop, Prod.mk.injEq] at h
    obtain ⟨-, h2, h3⟩ := h
    subst h2
    subst h3
    refine ⟨⟨?_, ?_⟩, ?_⟩ <;> intro hc
    · cases hc
    · cases hc
    · rfl
  | cons p rest ih =>
    intro idx k evs st ex h
    rcases hb : scan_iteration_body env p k with ⟨evsB, kB, rB⟩
    cases rB with
    | error e =>
      simp only [scan_loop, hb, Prod.mk.injEq] at h
      obtain ⟨-, h2, h3⟩ := h
      subst h2
      subst h3
      have hne : e ≠ ScanError.userAbort :=
        scan_iteration_body_no_userabort env p k e (by rw [hb])
      refine ⟨⟨?_, ?_⟩, ?_⟩ <;> intro hc
      · cases hc
      · cases hc
        exact absurd rfl hne
      · cases hc
    | ok u =>
      rcases hv : _verify_scan_status Status.running (env.flags idx) (env.polls idx) with
        ⟨st1, o⟩
      obtain ⟨c1, c2, c3⟩ := verify_status_cases Status.running (env.flags idx)
        (env.polls idx) st1 o hv
      cases o with
      | abortRaise =>
        simp only [scan_loop, hb, hv, Prod.mk.injEq] at h
        obtain ⟨-, h2, h3⟩ := h
        subst h2
        subst h3
        rw [c2 rfl]
        refine ⟨⟨?_, ?_⟩, ?_⟩ <;> intro hc
        · rfl
        · rfl
        · cases hc
      | stillPaused =>
        simp only [scan_loop, hb, hv, Prod.mk.injEq] at h
        obtain ⟨-, h2, h3⟩ := h
        subst h2
        subst h3
        rw [c3 rfl]
        refine ⟨⟨?_, ?_⟩, ?_⟩ <;> intro hc
        · cases hc
        · cases hc
        · cases hc
      | proceed =>
        have hst1 : st1 = Status.running := by
          rcases c1 rfl with h1 | h1 <;> exact h1
        subst hst1
        rcases hl : scan_loop env total rest (idx + 1) kB Status.running with ⟨evs2, st2, ex2⟩
        simp only [scan_loop, hb, hv, hl, Prod.mk.injEq] at h
        obtain ⟨-, h2, h3⟩ := h
        subst h2
        subst h3
        exact ih (idx + 1) kB evs2 st2 ex2 hl

/-- Loop events never include the initialization or finalization
event. -/
theorem scan_loop_no_init_fin {Pos Meas Data Err : Type} (env : ScanEnv Pos Meas Data Err)
    (total : Nat) :
    ∀ (ps : List Pos) (idx k : Nat) (st0 : Status),
      ∀ e ∈ (scan_loop env total ps idx k st0).1,
        e ≠ Ev.finalization ∧ e ≠ Ev.initialization := by
  intro ps
  induction ps with
  | nil => intro idx k st0 e he; simp [scan_loop] at he
  | cons p rest ih =>
    intro idx k st0 e he
    have hbody : ∀ x ∈ (scan_iteration_body env p k).1,
        x ≠ Ev.finalization ∧ x ≠ Ev.initialization := by
      intro x hx
      have hs := scan_iteration_body_events env p k x hx
      refine ⟨?_, ?_⟩ <;> intro hc <;> subst hc <;>
        rcases hs with h | h | h | h | h | h | h | h | ⟨r, h⟩ | h <;> cases h
    rcases hb : scan_iteration_body env p k with ⟨evsB, kB, rB⟩
    cases rB with
    | error e2 =>
      simp only [scan_loop, hb] at he
      exact hbody e (by rw [hb]; exact he)
    | ok u =>
      rcases hv : _verify_scan_status st0 (env.flags idx) (env.polls idx) with ⟨st1, o⟩
      cases o with
      | abortRaise =>
        simp only [scan_loop, hb, hv, List.mem_append, List.mem_singleton] at he
        rcases he with h | h
        · exact hbody e (by rw [hb]; exact h)
        · subst h
          exact ⟨(fun hc => by cases hc), (fun hc => by cases hc)⟩
      | stillPaused =>
        simp only [scan_loop, hb, hv, List.mem_append, List.mem_singleton] at he
        rcases he with h | h
        · exact hbody e (by rw [hb]; exact h)
        · subst h
          exact ⟨(fun hc => by cases hc), (fun hc => by cases hc)⟩
      | proceed =>
        rcases hl : scan_loop env total rest (idx + 1) kB st1 with ⟨evs2, st2, ex2⟩
        simp only [scan_loop, hb, hv, hl, List.mem_append, List.mem_singleton] at he
        rcases he with (h | h) | h
        · exact hbody e (by rw [hb]; exact h)
        · subst h
          exact ⟨(fun hc => by cases hc), (fun hc => by cases hc)⟩
        · exact ih (idx + 1) kB st1 e (by rw [hl]; exact h)

/-- Expected trace of a clean loop run: each position contributes its
iteration events followed by its progress report. -/
def clean_loop_evs {Pos Meas Data Err : Type} (env : ScanEnv Pos Meas Data Err)
    (total : Nat) : List Pos → Nat → Nat → List (Ev Pos Meas)
  | [], _, _ => []
  | p :: rest, idx, k =>
    clean_iter_evs env p k ++
      Ev.progress idx total :: clean_loop_evs env total rest (idx + 1) (k + 1)

/-- A loop over clean iterations with no flags raised runs every
position, emits the clean trace, and exits normally still running. -/
theorem scan_loop_clean {Pos Meas Data Err : Type} (env : ScanEnv Pos Meas Data Err)
    (total : Nat) (hnr : NonRaising env) (hn : env.n_measurements = 1)
    (hv : ∀ p m, env.validator p m = true) (hl : 1 ≤ env.retry_limit) :
    ∀ (ps : List Pos) (idx k : Nat),
      (∀ j, idx ≤ j → j < idx + ps.length → env.flags j = ⟨false, false⟩) →
      scan_loop env total ps idx k Status.running =
        (clean_loop_evs env total ps idx k, Status.running, LoopExit.normal) := by
  intro ps
  induction ps with
  | nil => intro idx k _; simp [scan_loop, clean_loop_evs]
  | cons p rest ih =>
    intro idx k hflags
    have hbody := scan_iteration_body_clean env hnr hn hv hl p k
    have hf : env.flags idx = ⟨false, false⟩ := by
      refine hflags idx (Nat.le_refl idx) ?_
      simp
    have hver : _verify_scan_status Status.running (env.flags idx) (env.polls idx) =
        (Status.running, VerifyOutcome.proceed) := by
      rw [hf]
      simp [_verify_scan_status]
    have hrest := ih (idx + 1) (k + 1) (by
      intro j hj1 hj2
      refine hflags j (by omega) (by simp at hj2 ⊢; omega))
    simp only [scan_loop, hbody, hver, hrest, clean_loop_evs]
    simp

/-- A loop over clean iterations whose abort flag first appears at
checkpoint `i` completes every iteration up to and including `i`
(events and progress reports intact) and then raises the user-abort
control error with the status `aborted`. -/
theorem scan_loop_abort {Pos Meas Data Err : Type} (env : ScanEnv Pos Meas Data Err)
    (total : Nat) (hnr : NonRaising env) (hn : env.n_measurements = 1)
    (hv : ∀ p m, env.validator p m = true) (hl : 1 ≤ env.retry_limit) (i : Nat) :
    ∀ (ps : List Pos) (idx k : Nat),
      idx ≤ i → i < idx + ps.length →
      (∀ j, idx ≤ j → j < i → env.flags j = ⟨false, false⟩) →
      (env.flags i).abort = true →
      scan_loop env total ps idx k Status.running =
        (clean_loop_evs env total (ps.take (i + 1 - idx)) idx k, Status.aborted,
         LoopExit.raised ScanError.userAbort) := by
  intro ps
  induction ps with
  | nil =>
    intro idx k h1 h2 _ _
    simp at h2
    omega
  | cons p rest ih =>
    intro idx k h1 h2 hclear habort
    have hbody := scan_iteration_body_clean env hnr hn hv hl p k
    by_cases hii : idx = i
    · subst hii
      have hver : _verify_scan_status Status.running (env.flags idx) (env.polls idx) =
          (Status.aborted, VerifyOutcome.abortRaise) := by
        simp [_verify_scan_status, habort]
      have htake : idx + 1 - idx = 1 := by omega
      simp only [scan_loop, hbody, hver, htake, List.take_succ_cons, List.take_zero,
        clean_loop_evs]
    · have hlt : idx < i := by omega
      have hf : env.flags idx = ⟨false, false⟩ := hclear idx (Nat.le_refl idx) hlt
      have hver : _verify_scan_status Status.running (env.flags idx) (env.polls idx) =
          (Status.running, VerifyOutcome.proceed) := by
        rw [hf]
        simp [_verify_scan_status]
      have hrest := ih (idx + 1) (k + 1) (by omega)
        (by have h3 := h2; simp only [List.length_cons] at h3; omega)
        (fun j hj1 hj2 => hclear j (by omega) hj2) habort
      have htake : i + 1 - idx = (i + 1 - (idx + 1)) + 1 := by omega
      rw [htake]
      simp only [scan_loop, hbody, hver, hrest, List.take_succ_cons, clean_loop_evs]
      simp

/-- The `finally` block with a successfully returning finalization
hook: the finalization event is emitted, the status becomes `finished`
unless it is `aborted`, and the pending outcome is kept. -/
theorem apply_finally_ok {Pos Meas Data Err : Type} (env : ScanEnv Pos Meas Data Err)
    (hfin : env.finalization = some (Except.ok ())) (evs : List (Ev Pos Meas)) (st : Status)
    (pending : ScanOutcome Pos Data Err) :
    apply_finally env evs st pending =
      (evs ++ [Ev.finalization], if st = Status.aborted then st else Status.finished,
       pending) := by
  simp [apply_finally, hfin]

/-- The `finally` block with no configured finalization hook: no event,
same status update, pending outcome kept. -/
theorem apply_finally_none {Pos Meas Data Err : Type} (env : ScanEnv Pos Meas Data Err)
    (hfin : env.finalization = Option.none) (evs : List (Ev Pos Meas)) (st : Status)
    (pending : ScanOutcome Pos Data Err) :
    apply_finally env evs st pending =
      (evs, if st = Status.aborted then st else Status.finished, pending) := by
  simp [apply_finally, hfin]

/-- A fully clean `discrete_scan`: zero progress first, then the
initialization hook, the whole clean loop, and the finalization hook;
it ends `finished` and returns the processor's data. -/
theorem discrete_scan_clean {Pos Meas Data Err : Type} (env : ScanEnv Pos Meas Data Err)
    (hnr : NonRaising env) (hn : env.n_measurements = 1)
    (hv : ∀ p m, env.validator p m = true) (hl : 1 ≤ env.retry_limit)
    (hflags : ∀ j, env.flags j = ⟨false, false⟩) :
    discrete_scan env =
      (Ev.progress 0 env.positions.length ::
         (hook_evs env.initialization Ev.initialization ++
          clean_loop_evs env env.positions.length env.positions 1 0 ++
          hook_evs env.finalization Ev.finalization),
       Status.finished, ScanOutcome.done env.get_data) := by
  have hloop := scan_loop_clean env env.positions.length hnr hn hv hl env.positions 1 0
    (fun j _ _ => hflags j)
  cases hinit : env.initialization with
  | none =>
    cases hfin : env.finalization with
    | none =>
      simp only [discrete_scan, hinit, hloop, apply_finally_none env hfin, hook_evs]
      simp
    | some rf =>
      have hrf := hnr.fin rf hfin
      subst hrf
      simp only [discrete_scan, hinit, hloop, apply_finally_ok env hfin, hook_evs]
      simp
  | some ri =>
    have hri := hnr.init ri hinit
    subst hri
    cases hfin : env.finalization with
    | none =>
      simp only [discrete_scan, hinit, hloop, apply_finally_none env hfin, hook_evs]
      simp
    | some rf =>
      have hrf := hnr.fin rf hfin
      subst hrf
      simp only [discrete_scan, hinit, hloop, apply_finally_ok env hfin, hook_evs]
      simp

/-- A clean `discrete_scan` whose abort flag first appears at checkpoint
`i`: iterations 1..i complete with their progress reports, finalization
still runs, the status ends `aborted`, and the user-abort control error
propagates out of `discrete_scan`. -/
theorem discrete_scan_abort {Pos Meas Data Err : Type} (env : ScanEnv Pos Meas Data Err)
    (hnr : NonRaising env) (hn : env.n_measurements = 1)
    (hv : ∀ p m, env.validator p m = true) (hl : 1 ≤ env.retry_limit) (i : Nat)
    (h1 : 1 ≤ i) (h2 : i ≤ env.positions.length)
    (hclear : ∀ j, j < i → 1 ≤ j → env.flags j = ⟨false, false⟩)
    (habort : (env.flags i).abort = true) :
    discrete_scan env =
      (Ev.progress 0 env.positions.length ::
         (hook_evs env.initialization Ev.initialization ++
          clean_loop_evs env env.positions.length (env.positions.take i) 1 0 ++
          hook_evs env.finalization Ev.finalization),
       Status.aborted, ScanOutcome.raised ScanError.userAbort) := by
  have hloop := scan_loop_abort env env.positions.length hnr hn hv hl i env.positions 1 0
    h1 (by omega) (fun j hj1 hj2 => hclear j hj2 hj1) habort
  have htake : i + 1 - 1 = i := by omega
  rw [htake] at hloop
  cases hinit : env.initialization with
  | none =>
    cases hfin : env.finalization with
    | none =>
      simp only [discrete_scan, hinit, hloop, apply_finally_none env hfin, hook_evs]
      simp
    | some rf =>
      have hrf := hnr.fin rf hfin
      subst hrf
      simp only [discrete_scan, hinit, hloop, apply_finally_ok env hfin, hook_evs]
      simp
  | some ri =>
    have hri := hnr.init ri hinit
    subst hri
    cases hfin : env.finalization with
    | none =>
      simp only [discrete_scan, hinit, hloop, apply_finally_none env hfin, hook_evs]
      simp
    | some rf =>
      have hrf := hnr.fin rf hfin
      subst hrf
      simp only [discrete_scan, hinit, hloop, apply_finally_ok env hfin, hook_evs]
      simp

/-- Extract the arguments of a progress-callback event. -/
def progress_args {Pos Meas : Type} : Ev Pos Meas → Option (Nat × Nat)
  | Ev.progress d t => some (d, t)
  | _ => Option.none

/-- Clean iteration events contain no progress event. -/
theorem clean_iter_evs_no_progress {Pos Meas Data Err : Type}
    (env : ScanEnv Pos Meas Data Err) (p : Pos) (k : Nat) :
    ∀ e ∈ clean_iter_evs env p k, progress_args e = Option.none := by
  intro e he
  simp only [clean_iter_evs, hook_evs, List.mem_append] at he
  rcases he with ((((((h | h) | h) | h) | h) | h) | h) <;>
    first
    | (cases hco : env.before_move <;> rw [hco] at h <;> simp at h <;>
        simp [h, progress_args])
    | skip
  · cases hco : env.writer <;> rw [hco] at h <;> simp at h <;> simp [h, progress_args]
  · simp at h; simp [h, progress_args]
  · cases hco : env.after_move <;> rw [hco] at h <;> simp at h <;> simp [h, progress_args]
  · cases hco : env.before_meas <;> rw [hco] at h <;> simp at h <;> simp [h, progress_args]
  · simp at h
    rcases h with h | h <;> simp [h, progress_args]
  · cases hco : env.after_meas <;> rw [hco] at h <;> simp at h <;> simp [h, progress_args]

/-- The progress reports of a clean loop run, in order: `(idx + j,
total)` for each position index `j`. -/
theorem clean_loop_evs_progress {Pos Meas Data Err : Type} (env : ScanEnv Pos Meas Data Err)
    (total : Nat) :
    ∀ (ps : List Pos) (idx k : Nat),
      (clean_loop_evs env total ps idx k).filterMap progress_args =
        (List.range ps.length).map fun j => (idx + j, total) := by
  intro ps
  induction ps with
  | nil => intro idx k; simp [clean_loop_evs]
  | cons p rest ih =>
    intro idx k
    have hnone : (clean_iter_evs env p k).filterMap progress_args = [] := by
      rw [List.filterMap_eq_nil]
      exact clean_iter_evs_no_progress env p k
    simp only [clean_loop_evs, List.filterMap_append, hnone, List.filterMap_cons,
      progress_args, ih (idx + 1) (k + 1), List.length_cons, List.nil_append]
    rw [List.range_succ_eq_map]
    simp only [List.map_cons, List.map_map, Nat.add_zero]
    congr 1
    apply List.map_congr_left
    intro j _
    simp only [Function.comp_apply]
    congr 1
    omega

/-- For each position in order: its processor call with the bare single
measurement, followed by its 1-based progress report. -/
def process_progress_blocks {Pos Meas Data Err : Type} (env : ScanEnv Pos Meas Data Err)
    (total : Nat) : List Pos → Nat → List (Ev Pos Meas)
  | [], _ => []
  | p :: rest, k =>
    Ev.process p (ReadResult.single (env.reader k)) :: Ev.progress (k + 1) total ::
      process_progress_blocks env total rest (k + 1)

/-- In a clean loop run each position's processor call precedes its
progress report, in position order. -/
theorem blocks_sublist_clean_loop {Pos Meas Data Err : Type}
    (env : ScanEnv Pos Meas Data Err) (total : Nat) :
    ∀ (ps : List Pos) (k : Nat),
      List.Sublist (process_progress_blocks env total ps k)
        (clean_loop_evs env total ps (k + 1) k) := by
  intro ps
  induction ps with
  | nil => intro k; simp [process_progress_blocks, clean_loop_evs]
  | cons p rest ih =>
    intro k
    have h1 : List.Sublist [Ev.process p (ReadResult.single (env.reader k))]
        (clean_iter_evs env p k) := by
      rw [List.singleton_sublist]
      simp [clean_iter_evs]
    have h2 : List.Sublist
        (Ev.progress (k + 1) total :: process_progress_blocks env total rest (k + 1))
        (Ev.progress (k + 1) total :: clean_loop_evs env total rest (k + 2) (k + 1)) :=
      List.Sublist.cons₂ (Ev.progress (k + 1) total) (ih (k + 1))
    have h3 := List.Sublist.append h1 h2
    simpa [process_progress_blocks, clean_loop_evs] using h3

/-- C2: for a scan over N positions with a single measurement per
position, the default always-true validator, no pause or abort signal,
and no hook or collaborator raising, the progress callback is invoked
exactly N+1 times with arguments (0,N), (1,N), ..., (N,N) in that order,
and each report (i,N) with i ≥ 1 comes after position i has been fully
processed (its processor call precedes it in the trace). -/
theorem progress_reports_exact {Pos Meas Data Err : Type} (env : ScanEnv Pos Meas Data Err)
    (hnr : NonRaising env) (hn : env.n_measurements = 1)
    (hv : ∀ p m, env.validator p m = true) (hl : 1 ≤ env.retry_limit)
    (hflags : ∀ j, env.flags j = ⟨false, false⟩) :
    ((discrete_scan env).1.filterMap progress_args =
      (List.range (env.positions.length + 1)).map fun i => (i, env.positions.length)) ∧
    List.Sublist
      (Ev.progress 0 env.positions.length ::
        process_progress_blocks env env.positions.length env.positions 0)
      (discrete_scan env).1 := by
  have hds := discrete_scan_clean env hnr hn hv hl hflags
  rw [hds]
  have hfili : (hook_evs env.initialization (Ev.initialization : Ev Pos Meas)).filterMap
      progress_args = [] := by
    cases env.initialization <;> simp [hook_evs, progress_args]
  have hfilf : (hook_evs env.finalization (Ev.finalization : Ev Pos Meas)).filterMap
      progress_args = [] := by
    cases env.finalization <;> simp [hook_evs, progress_args]
  constructor
  · simp only [List.filterMap_cons, progress_args, List.filterMap_append, hfili, hfilf,
      clean_loop_evs_progress env env.positions.length env.positions 1 0,
      List.nil_append, List.append_nil]
    rw [List.range_succ_eq_map]
    simp only [List.map_cons, List.map_map]
    congr 1
    apply List.map_congr_left
    intro j _
    simp only [Function.comp_apply]
    congr 1
    omega
  · refine List.Sublist.cons₂ _ ?_
    have hmid := blocks_sublist_clean_loop env env.positions.length env.positions 0
    have hright : List.Sublist
        (clean_loop_evs env env.positions.length env.positions 1 0)
        (hook_evs env.initialization Ev.initialization ++
          (clean_loop_evs env env.positions.length env.positions 1 0 ++
            hook_evs env.finalization Ev.finalization)) :=
      List.Sublist.trans
        (List.sublist_append_left _ _)
        (List.sublist_append_right _ _)
    rw [← List.append_assoc] at hright
    exact List.Sublist.trans hmid hright

/-- The witness environment's hooks and collaborators never raise. -/
theorem envW_nonraising : NonRaising envW where
  before_move := fun f hf => by cases hf
  writer := fun f hf p => by cases hf; rfl
  after_move := fun f hf => by cases hf
  before_meas := fun f hf => by cases hf
  after_meas := fun f hf => by cases hf
  process := fun p r => rfl
  init := fun r hr => by cases hr; rfl
  fin := fun r hr => by cases hr; rfl

/-- Witness for C2 on the three-position environment: four progress
reports (0,3), (1,3), (2,3), (3,3) in order, each preceded by its
position's processor call. -/
theorem progress_reports_exact_witness :
    envW.n_measurements = 1 ∧ 1 ≤ envW.retry_limit ∧
    ((discrete_scan envW).1.filterMap progress_args =
      (List.range (envW.positions.length + 1)).map fun i => (i, envW.positions.length)) ∧
    List.Sublist
      (Ev.progress 0 envW.positions.length ::
        process_progress_blocks envW envW.positions.length envW.positions 0)
      (discrete_scan envW).1 :=
  ⟨rfl, by decide,
   (progress_reports_exact envW envW_nonraising rfl (fun _ _ => rfl) (by decide)
     (fun _ => rfl)).1,
   (progress_reports_exact envW envW_nonraising rfl (fun _ _ => rfl) (by decide)
     (fun _ => rfl)).2⟩

/-- Recognize the finalization event. -/
def isFinalizationEv {Pos Meas : Type} : Ev Pos Meas → Bool
  | Ev.finalization => true
  | _ => false

/-- `isFinalizationEv` recognizes exactly the finalization event. -/
theorem isFinalizationEv_iff {Pos Meas : Type} (e : Ev Pos Meas) :
    isFinalizationEv e = true ↔ e = Ev.finalization := by
  cases e <;> simp [isFinalizationEv]

/-- The `finally` block with a raising finalization hook: the event is
still emitted, the status line is skipped, and the raised error replaces
the pending outcome. -/
theorem apply_finally_err {Pos Meas Data Err : Type} (env : ScanEnv Pos Meas Data Err)
    (e : Err) (hfin : env.finalization = some (Except.error e))
    (evs : List (Ev Pos Meas)) (st : Status) (pending : ScanOutcome Pos Data Err) :
    apply_finally env evs st pending =
      (evs ++ [Ev.finalization], st, ScanOutcome.raised (ScanError.hookError e)) := by
  simp [apply_finally, hfin]

/-- C6: whenever `discrete_scan` exits — normal completion, a
validation-retry failure, any hook or collaborator raising, or a user
abort — the configured finalization hook runs exactly once; and when the
finalization hook itself returns normally the final state is `finished`
unless the scan was aborted, in which case it stays `aborted` (a scan
that failed with a data error still ends `finished`). -/
theorem finalization_on_every_exit {Pos Meas Data Err : Type}
    (env : ScanEnv Pos Meas Data Err) (r : Except Err Unit)
    (hfin : env.finalization = some r)
    (hnothung : (discrete_scan env).2.2 ≠ ScanOutcome.hung) :
    ((discrete_scan env).1.countP fun e => isFinalizationEv e) = 1 ∧
    (r = Except.ok () →
      ((discrete_scan env).2.1 = Status.aborted ∨ (discrete_scan env).2.1 = Status.finished) ∧
      ((discrete_scan env).2.1 = Status.aborted ↔
        (discrete_scan env).2.2 = ScanOutcome.raised ScanError.userAbort)) := by
  have hcount : ∀ (evsI evsL : List (Ev Pos Meas)),
      (∀ e ∈ evsI, e ≠ Ev.finalization) → (∀ e ∈ evsL, e ≠ Ev.finalization) →
      (((Ev.progress 0 env.positions.length :: (evsI ++ evsL)) ++
          [Ev.finalization]).countP fun e => isFinalizationEv e) = 1 := by
    intro evsI evsL hI hL
    rw [List.countP_append, List.countP_cons, List.countP_append]
    have h0 : ∀ evs : List (Ev Pos Meas), (∀ e ∈ evs, e ≠ Ev.finalization) →
        (evs.countP fun e => isFinalizationEv e) = 0 := by
      intro evs hevs
      rw [List.countP_eq_zero]
      intro e he
      simp only [isFinalizationEv_iff]
      exact hevs e he
    rw [h0 evsI hI, h0 evsL hL]
    simp [isFinalizationEv]
  have hloopL := scan_loop_no_init_fin env env.positions.length env.positions 1 0
    Status.running
  rcases hloop : scan_loop env env.positions.length env.positions 1 0 Status.running with
    ⟨evsL, stL, exL⟩
  have hLfin : ∀ e ∈ evsL, e ≠ Ev.finalization := by
    intro e he
    exact (hloopL e (by rw [hloop]; exact he)).1
  have hstat := scan_loop_status env env.positions.length env.positions 1 0 evsL stL exL
    hloop
  rcases hinit : env.initialization with _ | ri
  · cases exL with
    | hung =>
      exact absurd (by simp [discrete_scan, hinit, hloop]) hnothung
    | normal =>
      cases r with
      | ok u =>
        cases u
        have hds : discrete_scan env =
            ((Ev.progress 0 env.positions.length :: ([] ++ evsL)) ++ [Ev.finalization],
             if stL = Status.aborted then stL else Status.finished,
             ScanOutcome.done env.get_data) := by
          simp [discrete_scan, hinit, hloop, apply_finally_ok env hfin]
        rw [hds]
        refine ⟨hcount [] evsL (by intro e he; cases he) hLfin, fun _ => ?_⟩
        have hrun : stL = Status.running := hstat.2 rfl
        subst hrun
        refine ⟨Or.inr rfl, ?_⟩
        simp
      | error e =>
        have hds : discrete_scan env =
            ((Ev.progress 0 env.positions.length :: ([] ++ evsL)) ++ [Ev.finalization],
             stL, ScanOutcome.raised (ScanError.hookError e)) := by
          simp [discrete_scan, hinit, hloop, apply_finally_err env e hfin]
        rw [hds]
        refine ⟨hcount [] evsL (by intro x hx; cases hx) hLfin, fun hr => ?_⟩
        cases hr
    | raised eL =>
      cases r with
      | ok u =>
        cases u
        have hds : discrete_scan env =
            ((Ev.progress 0 env.positions.length :: ([] ++ evsL)) ++ [Ev.finalization],
             if stL = Status.aborted then stL else Status.finished,
             ScanOutcome.raised eL) := by
          simp [discrete_scan, hinit, hloop, apply_finally_ok env hfin]
        rw [hds]
        refine ⟨hcount [] evsL (by intro x hx; cases hx) hLfin, fun _ => ?_⟩
        by_cases hab : stL = Status.aborted
        · rw [if_pos hab]
          rw [hab]
          refine ⟨Or.inl rfl, ?_⟩
          simp only [true_iff]
          have : LoopExit.raised eL = LoopExit.raised (ScanError.userAbort : ScanError Pos Err) :=
            hstat.1.mp hab
          cases this
          rfl
        · rw [if_neg hab]
          refine ⟨Or.inr rfl, ?_⟩
          constructor
          · intro hc
            cases hc
          · intro hc
            have heq : eL = ScanError.userAbort := by
              cases hc
              rfl
            subst heq
            exact absurd (hstat.1.mpr rfl) hab
      | error e =>
        have hds : discrete_scan env =
            ((Ev.progress 0 env.positions.length :: ([] ++ evsL)) ++ [Ev.finalization],
             stL, ScanOutcome.raised (ScanError.hookError e)) := by
          simp [discrete_scan, hinit, hloop, apply_finally_err env e hfin]
        rw [hds]
        refine ⟨hcount [] evsL (by intro x hx; cases hx) hLfin, fun hr => ?_⟩
        cases hr
  · cases hri : ri with
    | error e0 =>
      cases r with
      | ok u =>
        cases u
        have hds : discrete_scan env =
            ((Ev.progress 0 env.positions.length :: ([Ev.initialization] ++ [])) ++
               [Ev.finalization],
             Status.finished,
             ScanOutcome.raised (ScanError.hookError e0)) := by
          simp [discrete_scan, hinit, hri, apply_finally_ok env hfin]
        rw [hds]
        refine ⟨hcount [Ev.initialization] []
          (by intro x hx; simp at hx; subst hx; intro hc; cases hc)
          (by intro x hx; cases hx), fun _ => ?_⟩
        refine ⟨Or.inr rfl, ?_⟩
        simp
      | error e =>
        have hds : discrete_scan env =
            ((Ev.progress 0 env.positions.length :: ([Ev.initialization] ++ [])) ++
               [Ev.finalization],
             Status.running, ScanOutcome.raised (ScanError.hookError e)) := by
          simp [discrete_scan, hinit, hri, apply_finally_err env e hfin]
        rw [hds]
        refine ⟨hcount [Ev.initialization] []
          (by intro x hx; simp at hx; subst hx; intro hc; cases hc)
          (by intro x hx; cases hx), fun hr => ?_⟩
        cases hr
    | ok u0 =>
      cases u0
      cases exL with
      | hung =>
        exact absurd (by simp [discrete_scan, hinit, hri, hloop]) hnothung
      | normal =>
        cases r with
        | ok u =>
          cases u
          have hds : discrete_scan env =
              ((Ev.progress 0 env.positions.length :: ([Ev.initialization] ++ evsL)) ++
                 [Ev.finalization],
               if stL = Status.aborted then stL else Status.finished,
               ScanOutcome.done env.get_data) := by
            simp [discrete_scan, hinit, hri, hloop, apply_finally_ok env hfin]
          rw [hds]
          refine ⟨hcount [Ev.initialization] evsL
            (by intro x hx; simp at hx; subst hx; intro hc; cases hc) hLfin, fun _ => ?_⟩
          have hrun : stL = Status.running := hstat.2 rfl
          subst hrun
          refine ⟨Or.inr rfl, ?_⟩
          simp
        | error e =>
          have hds : discrete_scan env =
              ((Ev.progress 0 env.positions.length :: ([Ev.initialization] ++ evsL)) ++
                 [Ev.finalization],
               stL, ScanOutcome.raised (ScanError.hookError e)) := by
            simp [discrete_scan, hinit, hri, hloop, apply_finally_err env e hfin]
          rw [hds]
          refine ⟨hcount [Ev.initialization] evsL
            (by intro x hx; simp at hx; subst hx; intro hc; cases hc) hLfin, fun hr => ?_⟩
          cases hr
      | raised eL =>
        cases r with
        | ok u =>
          cases u
          have hds : discrete_scan env =
              ((Ev.progress 0 env.positions.length :: ([Ev.initialization] ++ evsL)) ++
                 [Ev.finalization],
               if stL = Status.aborted then stL else Status.finished,
               ScanOutcome.raised eL) := by
            simp [discrete_scan, hinit, hri, hloop, apply_finally_ok env hfin]
          rw [hds]
          refine ⟨hcount [Ev.initialization] evsL
            (by intro x hx; simp at hx; subst hx; intro hc; cases hc) hLfin, fun _ => ?_⟩
          by_cases hab : stL = Status.aborted
          · rw [if_pos hab]
            rw [hab]
            refine ⟨Or.inl rfl, ?_⟩
            simp only [true_iff]
            have : LoopExit.raised eL = LoopExit.raised (ScanError.userAbort : ScanError Pos Err) :=
              hstat.1.mp hab
            cases this
            rfl
          · rw [if_neg hab]
            refine ⟨Or.inr rfl, ?_⟩
            constructor
            · intro hc
              cases hc
            · intro hc
              have heq : eL = ScanError.userAbort := by
                cases hc
                rfl
              subst heq
              exact absurd (hstat.1.mpr rfl) hab
        | error e =>
          have hds : discrete_scan env =
              ((Ev.progress 0 env.positions.length :: ([Ev.initialization] ++ evsL)) ++
                 [Ev.finalization],
               stL, ScanOutcome.raised (ScanError.hookError e)) := by
            simp [discrete_scan, hinit, hri, hloop, apply_finally_err env e hfin]
          rw [hds]
          refine ⟨hcount [Ev.initialization] evsL
            (by intro x hx; simp at hx; subst hx; intro hc; cases hc) hLfin, fun hr => ?_⟩
          cases hr

/-- Witness for C6 on the three-position environment: one finalization
event, final status `finished`, and no abort. -/
theorem finalization_on_every_exit_witness :
    envW.finalization = some (Except.ok ()) ∧
    (discrete_scan envW).2.2 ≠ ScanOutcome.hung ∧
    (((discrete_scan envW).1.countP fun e => isFinalizationEv e) = 1 ∧
     ((Except.ok () : Except Unit Unit) = Except.ok () →
      ((discrete_scan envW).2.1 = Status.aborted ∨
        (discrete_scan envW).2.1 = Status.finished) ∧
      ((discrete_scan envW).2.1 = Status.aborted ↔
        (discrete_scan envW).2.2 = ScanOutcome.raised ScanError.userAbort))) :=
  ⟨rfl, by decide, finalization_on_every_exit envW (Except.ok ()) rfl (by decide)⟩

/-- Clean iteration events never include the finalization event. -/
theorem clean_iter_evs_no_fin {Pos Meas Data Err : Type}
    (env : ScanEnv Pos Meas Data Err) (p : Pos) (k : Nat) :
    ∀ e ∈ clean_iter_evs env p k, isFinalizationEv e = false := by
  intro e he
  simp only [clean_iter_evs, hook_evs, List.mem_append] at he
  rcases he with ((((((h | h) | h) | h) | h) | h) | h)
  · cases hco : env.before_move <;> rw [hco] at h <;> simp at h <;>
      simp [h, isFinalizationEv]
  · cases hco : env.writer <;> rw [hco] at h <;> simp at h <;> simp [h, isFinalizationEv]
  · simp at h; simp [h, isFinalizationEv]
  · cases hco : env.after_move <;> rw [hco] at h <;> simp at h <;>
      simp [h, isFinalizationEv]
  · cases hco : env.before_meas <;> rw [hco] at h <;> simp at h <;>
      simp [h, isFinalizationEv]
  · simp at h
    rcases h with h | h <;> simp [h, isFinalizationEv]
  · cases hco : env.after_meas <;> rw [hco] at h <;> simp at h <;>
      simp [h, isFinalizationEv]

/-- Clean loop events never include the finalization event. -/
theorem clean_loop_evs_no_fin {Pos Meas Data Err : Type}
    (env : ScanEnv Pos Meas Data Err) (total : Nat) :
    ∀ (ps : List Pos) (idx k : Nat),
      ∀ e ∈ clean_loop_evs env total ps idx k, isFinalizationEv e = false := by
  intro ps
  induction ps with
  | nil => intro idx k e he; simp [clean_loop_evs] at he
  | cons p rest ih =>
    intro idx k e he
    simp only [clean_loop_evs, List.mem_append, List.mem_cons] at he
    rcases he with h | h | h
    · exact clean_iter_evs_no_fin env p k e h
    · simp [h, isFinalizationEv]
    · exact ih (idx + 1) (k + 1) e h

/-- C7: once the abort flag is set and the loop reaches its next
checkpoint, the outer scan invocation returns without raising, the
status is `aborted`, the finalization hook has run exactly once, and
every progress report up to and including the completed iterations
(0,N) .. (i,N) was made. -/
theorem abort_returns_cleanly {Pos Meas Data Err : Type} (env : ScanEnv Pos Meas Data Err)
    (hnr : NonRaising env) (hn : env.n_measurements = 1)
    (hv : ∀ p m, env.validator p m = true) (hl : 1 ≤ env.retry_limit)
    (hfin : env.finalization = some (Except.ok ())) (i : Nat)
    (h1 : 1 ≤ i) (h2 : i ≤ env.positions.length)
    (hclear : ∀ j, j < i → 1 ≤ j → env.flags j = ⟨false, false⟩)
    (habort : (env.flags i).abort = true) :
    (scan_invocation env).2.2 = ScanResult.abortedReturn ∧
    (scan_invocation env).2.1 = Status.aborted ∧
    (((scan_invocation env).1.countP fun e => isFinalizationEv e) = 1) ∧
    ((scan_invocation env).1.filterMap progress_args =
      (List.range (i + 1)).map fun j => (j, env.positions.length)) := by
  have hds := discrete_scan_abort env hnr hn hv hl i h1 h2 hclear habort
  have hsi : scan_invocation env =
      (Ev.progress 0 env.positions.length ::
         (hook_evs env.initialization Ev.initialization ++
          clean_loop_evs env env.positions.length (env.positions.take i) 1 0 ++
          hook_evs env.finalization Ev.finalization),
       Status.aborted, ScanResult.abortedReturn) := by
    simp [scan_invocation, hds]
  rw [hsi]
  refine ⟨rfl, rfl, ?_, ?_⟩
  · have h0 : ∀ evs : List (Ev Pos Meas), (∀ e ∈ evs, isFinalizationEv e = false) →
        (evs.countP fun e => isFinalizationEv e) = 0 := by
      intro evs hevs
      rw [List.countP_eq_zero]
      intro e he
      simp [hevs e he]
    have hIcount : ((hook_evs env.initialization (Ev.initialization : Ev Pos Meas)).countP
        fun e => isFinalizationEv e) = 0 := by
      apply h0
      intro e he
      rcases hco : env.initialization with _ | r2
      · rw [hco] at he
        simp [hook_evs] at he
      · rw [hco] at he
        simp [hook_evs] at he
        simp [he, isFinalizationEv]
    have hLcount : ((clean_loop_evs env env.positions.length (env.positions.take i)
        1 0).countP fun e => isFinalizationEv e) = 0 :=
      h0 _ (clean_loop_evs_no_fin env env.positions.length (env.positions.take i) 1 0)
    rw [List.countP_cons, List.countP_append, List.countP_append, hIcount, hLcount, hfin]
    simp [hook_evs, isFinalizationEv]
  · have hfili : (hook_evs env.initialization (Ev.initialization : Ev Pos Meas)).filterMap
        progress_args = [] := by
      cases env.initialization <;> simp [hook_evs, progress_args]
    have hfilf : (hook_evs env.finalization (Ev.finalization : Ev Pos Meas)).filterMap
        progress_args = [] := by
      cases env.finalization <;> simp [hook_evs, progress_args]
    have hlen : (env.positions.take i).length = i := by
      rw [List.length_take]
      omega
    simp only [List.filterMap_cons, progress_args, List.filterMap_append, hfili, hfilf,
      clean_loop_evs_progress env env.positions.length (env.positions.take i) 1 0, hlen,
      List.nil_append, List.append_nil]
    rw [List.range_succ_eq_map]
    simp only [List.map_cons, List.map_map]
    congr 1
    apply List.map_congr_left
    intro j _
    simp only [Function.comp_apply]
    congr 1
    omega

/-- The witness environment with the abort flag set from checkpoint 2
onward. -/
def envAbortW : ScanEnv Nat Nat Nat Unit :=
  { envW with flags := fun j => ⟨decide (2 ≤ j), false⟩ }

/-- Its hooks never raise (same collaborators as `envW`). -/
theorem envAbortW_nonraising : NonRaising envAbortW where
  before_move := fun f hf => by cases hf
  writer := fun f hf p => by cases hf; rfl
  after_move := fun f hf => by cases hf
  before_meas := fun f hf => by cases hf
  after_meas := fun f hf => by cases hf
  process := fun p r => rfl
  init := fun r hr => by cases hr; rfl
  fin := fun r hr => by cases hr; rfl

/-- Witness for C7: the abort flag appears at checkpoint 2 of the
three-position scan: the invocation returns without raising with status
`aborted`, one finalization event, and progress reports (0,3), (1,3),
(2,3). -/
theorem abort_returns_cleanly_witness :
    (∀ j, j < 2 → 1 ≤ j → envAbortW.flags j = ⟨false, false⟩) ∧
    (envAbortW.flags 2).abort = true ∧
    ((scan_invocation envAbortW).2.2 = ScanResult.abortedReturn ∧
     (scan_invocation envAbortW).2.1 = Status.aborted ∧
     (((scan_invocation envAbortW).1.countP fun e => isFinalizationEv e) = 1) ∧
     ((scan_invocation envAbortW).1.filterMap progress_args =
       (List.range (2 + 1)).map fun j => (j, envAbortW.positions.length))) :=
  ⟨by decide, by decide,
   abort_returns_cleanly envAbortW envAbortW_nonraising rfl (fun _ _ => rfl) (by decide)
     rfl 2 (by decide) (by decide) (by decide) (by decide)⟩

end PyScan
